import Mathlib

/-!
Shallow embedding of `src/mstmain/mst.go` (package main):
the Prim minimum-spanning-tree solver (`findDistances`, the
`container/heap`-driven `PriorityQueue`, `findMST`) and the grid
rasterizer (`plotMST`).

Modelling conventions:
* Go `float64` values are modelled as real numbers (`ℝ`); `math.MaxFloat64`
  is the exact rational constant `2^1024 - 2^971`.
* `complex128` points are modelled as pairs `ℝ × ℝ`; `cmplx.Abs` is the
  exact Euclidean norm.
* Go slice indexing panics when out of range; every such access is modelled
  by `getE` / `setE` returning `Except String`, and a Go runtime panic is
  an `Except.error`.
* The solver's algorithmic core (`findMST` and the heap) only compares
  distances, so it is defined polymorphically over a linear order `α`;
  the program itself is the instantiation at `α = ℝ`.  A strictly monotone
  map between orders commutes with the whole computation, which lets
  concrete runs be evaluated over `ℚ` and transported to `ℝ`.
* Go loops become structural recursion; the two unbounded loops
  (`heap.up`/`heap.down` inner loops and the main `for len(pq) > 0` loop)
  carry a fuel argument that is provably sufficient, with the loop exit
  tests checked before fuel so that fuel exhaustion is unreachable.
-/

namespace PrimMST

/-- Go constants from mst.go: `rows = 300`, `columns = rows`. -/
def rows : Nat := 300

/-- `columns = rows` in the source. -/
def columns : Nat := rows

/-- `xlabels = 11` in the source (x-axis label count). -/
def xlabels : Nat := 11

/-- `ylabels = 11` in the source (y-axis label count). -/
def ylabels : Nat := 11

/-- `math.MaxFloat64 = 2^1024 - 2^971`, as an exact rational (written as
its integer value so that concrete runs reduce in the kernel; see
`maxFloat64_eq`). -/
def maxFloat64 : ℚ := 179769313486231570814527423731704356798070567525844996598917476803157260780028538760589558632766878171540458953514382464234321326889464182768467546703537516986049910576551282076245490090389328944075868508455133942304583236903222948165808559332123348274797826204144723168738177180919299881250404026184124858368

theorem maxFloat64_eq : maxFloat64 = 2 ^ 1024 - 2 ^ 971 := by
  norm_num [maxFloat64]

/-- A point `complex(x, y)` of the Euclidean graph (`p.location` entries). -/
abbrev Point : Type := ℝ × ℝ

/-- `cmplx.Abs z` for `z = (re, im)`: the Euclidean absolute value. -/
noncomputable def cabs (z : ℝ × ℝ) : ℝ :=
  Real.sqrt (z.1 ^ 2 + z.2 ^ 2)

/-- Edge of the MST: `type Edge struct { v, w int }`. -/
structure Edge where
  v : Nat
  w : Nat
deriving DecidableEq, Repr

/-- Checked slice read: Go `l[i]` panics ("index out of range") when
`i ≥ len(l)`. -/
def getE {β : Type} (l : List β) (i : Nat) : Except String β :=
  match l[i]? with
  | some b => .ok b
  | none => .error "index out of range"

/-- Checked slice write: Go `l[i] = b` panics when `i ≥ len(l)`. -/
def setE {β : Type} (l : List β) (i : Nat) (b : β) : Except String (List β) :=
  if i < l.length then .ok (l.set i b) else .error "index out of range"

theorem getE_ok {β : Type} (l : List β) (i : Nat) (h : i < l.length) :
    getE l i = .ok (l.get ⟨i, h⟩) := by
  unfold getE
  rw [List.getElem?_eq_getElem h]
  rfl

theorem setE_ok {β : Type} (l : List β) (i : Nat) (b : β) (h : i < l.length) :
    setE l i b = .ok (l.set i b) := by
  simp [setE, h]

theorem getE_eq_ok_iff {β : Type} {l : List β} {i : Nat} {b : β} :
    getE l i = .ok b ↔ l[i]? = some b := by
  unfold getE
  split <;> simp_all [List.getElem?_eq_none]

theorem setE_eq_ok_iff {β : Type} {l : List β} {i : Nat} {b : β} {l' : List β} :
    setE l i b = .ok l' ↔ i < l.length ∧ l' = l.set i b := by
  unfold setE
  split
  · simp_all [eq_comm]
  · simp_all

/-! ### The distance matrix: `findDistances`

```go
func (p *PrimMST) findDistances() error {
    verts := len(p.location)
    p.graph = make([][]float64, verts)
    for i := 0; i < verts; i++ { p.graph[i] = make([]float64, verts) }
    for i := 0; i < verts; i++ {
        for j := i + 1; j < verts; j++ {
            distance := cmplx.Abs(p.location[i] - p.location[j])
            p.graph[i][j] = distance
            p.graph[j][i] = distance
        }
    }
    for i := 0; i < verts; i++ { p.graph[i][i] = math.MaxFloat64 }
    return nil
}
```
All indices are within the freshly allocated `verts × verts` matrix, so no
access can panic; the function is total and its `error` result is `nil`. -/

/-- Write `g[i][j] = d` in a matrix represented as a list of rows.
(`findDistances` only writes inside the allocated `verts × verts` bounds.) -/
def set2 (g : List (List ℝ)) (i j : Nat) (d : ℝ) : List (List ℝ) :=
  g.set i ((g.getD i []).set j d)

/-- Read `g[i][j]` of a row-list matrix, with default `0`. -/
def get2 (g : List (List ℝ)) (i j : Nat) : ℝ :=
  (g.getD i []).getD j 0

/-- The inner `for j := i+1; j < verts` loop body of `findDistances`:
writes the distance to `[i][j]` and `[j][i]`. -/
noncomputable def findDistancesInner (loc : List Point) (i : Nat)
    (g : List (List ℝ)) (j : Nat) : List (List ℝ) :=
  let distance := cabs (loc.getD i default - loc.getD j default)
  set2 (set2 g i j distance) j i distance

/-- `findDistances`: build the symmetric `verts × verts` Euclidean distance
matrix, then set every diagonal entry to `math.MaxFloat64`.  The Go
function stores the matrix in `p.graph` and returns `nil`. -/
noncomputable def findDistances (loc : List Point) : List (List ℝ) :=
  let verts := loc.length
  let g0 := List.replicate verts (List.replicate verts (0 : ℝ))
  let g1 := (List.range verts).foldl
    (fun g i => (List.range' (i + 1) (verts - (i + 1))).foldl
      (findDistancesInner loc i) g) g0
  (List.range verts).foldl (fun g i => set2 g i i ((maxFloat64 : ℚ) : ℝ)) g1

/-- The Go `error` result of `findDistances` (always `nil`). -/
def findDistancesErr (loc : List Point) : Option String :=
  none

/-! ### The priority queue and `container/heap`

```go
type Item struct { Edge; index int; distance float64 }
type PriorityQueue map[int]*Item
```
`Push` stores at key `len(pq)` and `Pop` deletes key `len(pq)-1`, so the
key set is always the contiguous range `0..len(pq)-1`; the map is
therefore modelled as a `List (Item α)` whose position `i` is map key `i`.
The heap helpers `up`/`down` are transcribed from Go's `container/heap`.
Heap positions are naturals; `(j-1)/2` at `j = 0` gives `0` in both Go's
truncating `int` division and `Nat` arithmetic.  Go sets a popped item's
`index` to `-1`; that field is never read afterwards, so the model leaves
it unchanged. -/

/-- Queue item: embedded `Edge` (`v`, `w`), heap slot `index`, `distance`. -/
structure Item (α : Type) where
  v : Nat
  w : Nat
  index : Nat
  distance : α
deriving DecidableEq, Repr

/-- `Less(i, j)`: compare the distances of the items at slots `i`, `j`;
Go dereferences `pq[i]`/`pq[j]` (panic if absent). -/
def pqLess {α : Type} [LinearOrder α] (pq : List (Item α)) (i j : Nat) :
    Except String Bool := do
  let a ← getE pq i
  let b ← getE pq j
  .ok (decide (a.distance < b.distance))

/-- `Swap(i, j)`: exchange slots `i` and `j` and fix both `index` fields. -/
def pqSwap {α : Type} (pq : List (Item α)) (i j : Nat) :
    Except String (List (Item α)) := do
  let a ← getE pq i
  let b ← getE pq j
  let pq ← setE pq i { b with index := i }
  setE pq j { a with index := j }

/-- `container/heap.up`: sift slot `j` up.  Each Go loop iteration checks
the exit tests (`i == j || !h.Less(j, i)`) and then swaps; fuel counts
swaps and the exit tests are evaluated in both fuel branches, so a fuel
of at least `j` can never be exhausted. -/
def heapUp {α : Type} [LinearOrder α] :
    Nat → List (Item α) → Nat → Except String (List (Item α))
  | 0, pq, j =>
    let i := (j - 1) / 2
    if i = j then .ok pq
    else do
      let b ← pqLess pq j i
      if b then .error "heap up out of fuel" else .ok pq
  | fuel + 1, pq, j =>
    let i := (j - 1) / 2
    if i = j then .ok pq
    else do
      let b ← pqLess pq j i
      if b then do
        let pq ← pqSwap pq i j
        heapUp fuel pq i
      else .ok pq

/-- `container/heap.down`: sift slot `i0` down within `pq[0:n]`; returns
the final slot (Go returns `i > i0`).  Fuel counts swaps, with the loop
exit tests evaluated in both fuel branches, so a fuel of at least `n`
can never be exhausted. -/
def heapDown {α : Type} [LinearOrder α] :
    Nat → List (Item α) → Nat → Nat → Except String (Nat × List (Item α))
  | 0, pq, i, n =>
    let j1 := 2 * i + 1
    if n ≤ j1 then .ok (i, pq)
    else do
      let j ←
        if j1 + 1 < n then do
          let b ← pqLess pq (j1 + 1) j1
          pure (if b then j1 + 1 else j1)
        else pure j1
      let b ← pqLess pq j i
      if b then .error "heap down out of fuel" else .ok (i, pq)
  | fuel + 1, pq, i, n =>
    let j1 := 2 * i + 1
    if n ≤ j1 then .ok (i, pq)
    else do
      let j ←
        if j1 + 1 < n then do
          let b ← pqLess pq (j1 + 1) j1
          pure (if b then j1 + 1 else j1)
        else pure j1
      let b ← pqLess pq j i
      if b then do
        let pq ← pqSwap pq i j
        heapDown fuel pq j n
      else .ok (i, pq)

/-- `heap.Init`: `for i := n/2 - 1; i >= 0; i-- { down(h, i, n) }`. -/
def heapInitGo {α : Type} [LinearOrder α] (pq : List (Item α)) :
    Except String (List (Item α)) :=
  (List.range (pq.length / 2)).reverse.foldlM
    (fun pq i => do
      let r ← heapDown pq.length pq i pq.length
      pure r.2)
    pq

/-- `heap.Push`: the interface `Push` appends with `index = len(pq)`,
then `up(h, h.Len()-1)`. -/
def heapPushGo {α : Type} [LinearOrder α] (pq : List (Item α))
    (it : Item α) : Except String (List (Item α)) :=
  let pq := pq ++ [{ it with index := pq.length }]
  heapUp pq.length pq (pq.length - 1)

/-- `heap.Pop`: `Swap(0, n-1)`, `down(0, n-1)`, then the interface `Pop`
removes and returns the item at key `len(pq)-1`.  On an empty queue the
first `Swap` dereferences a nil pointer (modelled by `getE`'s error). -/
def heapPopGo {α : Type} [LinearOrder α] (pq : List (Item α)) :
    Except String (Item α × List (Item α)) := do
  let n := pq.length - 1
  let pq ← pqSwap pq 0 n
  let r ← heapDown pq.length pq 0 n
  let pq := r.2
  match pq.getLast? with
  | some it => .ok (it, pq.dropLast)
  | none => .error "Pop on empty queue"

/-- `heap.Fix(pq, i)`: `if !down(h, i, h.Len()) { up(h, i) }`. -/
def heapFixGo {α : Type} [LinearOrder α] (pq : List (Item α)) (i : Nat) :
    Except String (List (Item α)) := do
  let r ← heapDown pq.length pq i pq.length
  if r.1 > i then .ok r.2
  else heapUp pq.length r.2 i

/-! ### `findMST`

```go
func (p *PrimMST) findMST() error {
    vertices := len(p.location)
    p.mst = make(MST, vertices)
    marked := make([]bool, vertices)
    distTo := make([]float64, vertices)
    for i := range distTo { distTo[i] = math.MaxFloat64 }
    pq := make(PriorityQueue)
    visit := func(v int) { ... }
    distTo[0] = math.MaxFloat64
    pq[0] = &Item{index: 0, distance: math.MaxFloat64, Edge: Edge{v: 0, w: 0}}
    heap.Init(&pq)
    for len(pq) > 0 { item := heap.Pop(&pq).(*Item); visit(item.w) }
    return nil
}
```
Note the `visit` closure looks up `pq[w]` where `w` is a **vertex** index
but the map keys are **heap slots**; the model reproduces this lookup
(`s.pq[w]?`) exactly as written. -/

/-- Solver state: `marked`, `distTo`, the accumulating `p.mst`
(`nil` entries are `none`), and the priority queue. -/
structure PrimState (α : Type) where
  marked : List Bool
  distTo : List α
  mst : List (Option Edge)
  pq : List (Item α)
deriving DecidableEq, Repr

/-- Body of `visit`'s `for w, dist := range p.graph[v]` loop, from entry
index `w`:  skip marked vertices; on `dist < distTo[w]` record the edge,
lower `distTo[w]`, then update the item found at **map key `w`** if
present (`item, ok := pq[w]`) and push a fresh item otherwise. -/
def visitLoop {α : Type} [LinearOrder α] (v : Nat) :
    List α → Nat → PrimState α → Except String (PrimState α)
  | [], _, s => .ok s
  | dist :: rest, w, s => do
    let mw ← getE s.marked w
    if mw then visitLoop v rest (w + 1) s
    else do
      let dtw ← getE s.distTo w
      if dist < dtw then do
        let mst ← setE s.mst w (some ⟨v, w⟩)
        let distTo ← setE s.distTo w dist
        let s := { s with mst := mst, distTo := distTo }
        match s.pq[w]? with
        | some item => do
          let pq ← setE s.pq w { item with distance := dist }
          let pq ← heapFixGo pq item.index
          visitLoop v rest (w + 1) { s with pq := pq }
        | none => do
          let pq ← heapPushGo s.pq ⟨v, w, 0, dist⟩
          visitLoop v rest (w + 1) { s with pq := pq }
      else visitLoop v rest (w + 1) s

/-- `visit(v)`: set `marked[v] = true`, then run the row loop over
`p.graph[v]`. -/
def visitGo {α : Type} [LinearOrder α] (graph : List (List α)) (v : Nat)
    (s : PrimState α) : Except String (PrimState α) := do
  let marked ← setE s.marked v true
  let row ← getE graph v
  visitLoop v row 0 { s with marked := marked }

/-- One iteration of the main loop: `item := heap.Pop(&pq)` then
`visit(item.w)`. -/
def mstStep {α : Type} [LinearOrder α] (graph : List (List α))
    (s : PrimState α) : Except String (PrimState α) := do
  let r ← heapPopGo s.pq
  visitGo graph r.1.w { s with pq := r.2 }

/-- `for len(pq) > 0 { ... }`, with fuel counting iterations (the
emptiness test is evaluated in both fuel branches, and ample fuel is
never exhausted). -/
def mstLoop {α : Type} [LinearOrder α] (graph : List (List α)) :
    Nat → PrimState α → Except String (PrimState α)
  | 0, s =>
    if s.pq.length = 0 then .ok s else .error "mst loop out of fuel"
  | fuel + 1, s =>
    if s.pq.length = 0 then .ok s
    else do
      let s ← mstStep graph s
      mstLoop graph fuel s

/-- Iterate `mstStep` exactly `k` times (used to inspect intermediate
solver states). -/
def mstIterate {α : Type} [LinearOrder α] (graph : List (List α)) :
    Nat → PrimState α → Except String (PrimState α)
  | 0, s => .ok s
  | k + 1, s => do
    let s ← mstStep graph s
    mstIterate graph k s

/-- The statements of `findMST` before the main loop: allocate the state,
write `distTo[0]` (this is the write that panics on an empty point set),
seed the queue map at key `0`, and `heap.Init`. -/
def mstInitE {α : Type} [LinearOrder α] (maxVal : α) (vertices : Nat) :
    Except String (PrimState α) := do
  let mst : List (Option Edge) := List.replicate vertices none
  let marked := List.replicate vertices false
  let distTo := List.replicate vertices maxVal
  let distTo ← setE distTo 0 maxVal
  let pq : List (Item α) := [⟨0, 0, 0, maxVal⟩]
  let pq ← heapInitGo pq
  .ok ⟨marked, distTo, mst, pq⟩

/-- `findMST` over an arbitrary linear order: initialization then the
main loop.  The fuel `vertices² + vertices + 2` strictly exceeds the
loop's decreasing potential, so it is never exhausted. -/
def findMSTE {α : Type} [LinearOrder α] (maxVal : α) (vertices : Nat)
    (graph : List (List α)) : Except String (PrimState α) := do
  let s ← mstInitE maxVal vertices
  mstLoop graph (vertices * vertices + vertices + 2) s

/-- The program's `findMST`: runs on `p.location.length` and `p.graph`
over `ℝ`, and ends with `return nil` — the `.ok` payload pairs the Go
`error` result (always `none`) with the computed `p.mst`. -/
noncomputable def findMSTR (location : List Point) (graph : List (List ℝ)) :
    Except String (Option String × List (Option Edge)) := do
  let s ← findMSTE ((maxFloat64 : ℚ) : ℝ) location.length graph
  .ok (none, s.mst)

/-! ### Transport along a strictly monotone map

`findMST` only ever compares distances, so a strictly monotone map
between linear orders commutes with the whole computation.  This lets
each concrete run of the `ℝ`-instantiated solver be computed over `ℕ`
and transported. -/

/-- Map an item's distance. -/
def mapItem {α β : Type} (f : α → β) (it : Item α) : Item β :=
  ⟨it.v, it.w, it.index, f it.distance⟩

/-- Map a solver state's distances. -/
def mapState {α β : Type} (f : α → β) (s : PrimState α) : PrimState β :=
  ⟨s.marked, s.distTo.map f, s.mst, s.pq.map (mapItem f)⟩

theorem mapState_pq {α β : Type} (f : α → β) (s : PrimState α) :
    (mapState f s).pq = s.pq.map (mapItem f) := rfl

theorem mapState_mst {α β : Type} (f : α → β) (s : PrimState α) :
    (mapState f s).mst = s.mst := rfl

theorem getE_map {β γ : Type} (g : β → γ) (l : List β) (i : Nat) :
    getE (l.map g) i = (getE l i).map g := by
  unfold getE
  rw [List.getElem?_map]
  cases l[i]? <;> rfl

theorem setE_map {β γ : Type} (g : β → γ) (l : List β) (i : Nat) (b : β) :
    setE (l.map g) i (g b) = (setE l i b).map (List.map g) := by
  unfold setE
  simp only [List.length_map]
  split <;> simp [List.map_set, Except.map]

section Mono

variable {α β : Type} [LinearOrder α] [LinearOrder β] {f : α → β}

theorem pqLess_map (hf : StrictMono f) (pq : List (Item α)) (i j : Nat) :
    pqLess (pq.map (mapItem f)) i j = pqLess pq i j := by
  unfold pqLess
  rw [getE_map, getE_map]
  cases hi : getE pq i <;> cases hj : getE pq j <;>
    simp [Except.map, mapItem, hf.lt_iff_lt, Bind.bind, Except.bind]

theorem pqSwap_map (pq : List (Item α)) (i j : Nat) :
    pqSwap (pq.map (mapItem f)) i j =
      (pqSwap pq i j).map (List.map (mapItem f)) := by
  unfold pqSwap
  rw [getE_map, getE_map]
  cases ha : getE pq i with
  | error e => rfl
  | ok a =>
    cases hb : getE pq j with
    | error e => rfl
    | ok b =>
      simp only [Except.map, Bind.bind, Except.bind]
      have h1 : ({ mapItem f b with index := i }) = mapItem f { b with index := i } := rfl
      rw [h1, setE_map]
      cases hc : setE pq i { b with index := i } with
      | error e => rfl
      | ok pq1 =>
        simp only [Except.map]
        have h2 : ({ mapItem f a with index := j }) = mapItem f { a with index := j } := rfl
        rw [h2, setE_map]
        cases setE pq1 j { a with index := j } <;> rfl

theorem heapUp_map (hf : StrictMono f) (fuel : Nat) :
    ∀ (pq : List (Item α)) (j : Nat),
      heapUp fuel (pq.map (mapItem f)) j =
        (heapUp fuel pq j).map (List.map (mapItem f)) := by
  induction fuel with
  | zero =>
    intro pq j
    simp only [heapUp]
    split
    · rfl
    · rw [pqLess_map hf]
      cases pqLess pq j ((j - 1) / 2) with
      | error e => rfl
      | ok b =>
        simp only [Bind.bind, Except.bind]
        cases b <;> rfl
  | succ fuel ih =>
    intro pq j
    simp only [heapUp]
    split
    · rfl
    · rw [pqLess_map hf]
      cases pqLess pq j ((j - 1) / 2) with
      | error e => rfl
      | ok b =>
        simp only [Bind.bind, Except.bind]
        cases b
        · rfl
        · simp only []
          rw [pqSwap_map]
          cases pqSwap pq ((j - 1) / 2) j with
          | error e => rfl
          | ok pq1 =>
            simp only [Except.map]
            exact ih pq1 ((j - 1) / 2)

theorem heapDown_map (hf : StrictMono f) (fuel : Nat) :
    ∀ (pq : List (Item α)) (i n : Nat),
      heapDown fuel (pq.map (mapItem f)) i n =
        (heapDown fuel pq i n).map (fun r => (r.1, r.2.map (mapItem f))) := by
  induction fuel with
  | zero =>
    intro pq i n
    simp only [heapDown, Bind.bind, Except.bind, pure, Except.pure]
    split
    · rfl
    · split
      · rw [pqLess_map hf]
        cases pqLess pq (2 * i + 1 + 1) (2 * i + 1) with
        | error e => rfl
        | ok b =>
          dsimp only
          rw [pqLess_map hf]
          cases pqLess pq (if b then 2 * i + 1 + 1 else 2 * i + 1) i with
          | error e2 => rfl
          | ok b2 => cases b2 <;> rfl
      · rw [pqLess_map hf]
        cases pqLess pq (2 * i + 1) i with
        | error e2 => rfl
        | ok b2 => cases b2 <;> rfl
  | succ fuel ih =>
    intro pq i n
    simp only [heapDown, Bind.bind, Except.bind, pure, Except.pure]
    split
    · rfl
    · split
      · rw [pqLess_map hf]
        cases pqLess pq (2 * i + 1 + 1) (2 * i + 1) with
        | error e => rfl
        | ok b =>
          dsimp only
          rw [pqLess_map hf]
          cases pqLess pq (if b then 2 * i + 1 + 1 else 2 * i + 1) i with
          | error e2 => rfl
          | ok b2 =>
            cases b2
            · rfl
            · dsimp only
              rw [pqSwap_map]
              cases pqSwap pq i (if b then 2 * i + 1 + 1 else 2 * i + 1) with
              | error e3 => rfl
              | ok pq1 =>
                simp only [Except.map]
                exact ih pq1 (if b then 2 * i + 1 + 1 else 2 * i + 1) n
      · rw [pqLess_map hf]
        cases pqLess pq (2 * i + 1) i with
        | error e2 => rfl
        | ok b2 =>
          cases b2
          · rfl
          · dsimp only
            rw [pqSwap_map]
            cases pqSwap pq i (2 * i + 1) with
            | error e3 => rfl
            | ok pq1 =>
              simp only [Except.map]
              exact ih pq1 (2 * i + 1) n

theorem heapInitAux_map (hf : StrictMono f) (l : List Nat) :
    ∀ pq : List (Item α),
      l.foldlM (fun (pq : List (Item β)) (i : Nat) => do
          let r ← heapDown pq.length pq i pq.length
          pure r.2) (pq.map (mapItem f)) =
        (l.foldlM (fun (pq : List (Item α)) (i : Nat) => do
          let r ← heapDown pq.length pq i pq.length
          pure r.2) pq).map (List.map (mapItem f)) := by
  induction l with
  | nil => intro pq; rfl
  | cons a l ih =>
    intro pq
    simp only [List.foldlM_cons, Bind.bind, Except.bind, List.length_map]
    rw [heapDown_map hf]
    cases heapDown pq.length pq a pq.length with
    | error e => rfl
    | ok r =>
      simp only [Except.map, pure, Except.pure]
      exact ih r.2

theorem heapInitGo_map (hf : StrictMono f) (pq : List (Item α)) :
    heapInitGo (pq.map (mapItem f)) =
      (heapInitGo pq).map (List.map (mapItem f)) := by
  unfold heapInitGo
  rw [List.length_map]
  exact heapInitAux_map hf _ pq

theorem heapPushGo_map (hf : StrictMono f) (pq : List (Item α)) (it : Item α) :
    heapPushGo (pq.map (mapItem f)) (mapItem f it) =
      (heapPushGo pq it).map (List.map (mapItem f)) := by
  unfold heapPushGo
  rw [List.length_map]
  have h1 : pq.map (mapItem f) ++ [{ mapItem f it with index := pq.length }] =
      (pq ++ [{ it with index := pq.length }]).map (mapItem f) := by
    simp [mapItem]
  rw [h1]
  simp only [List.length_map]
  exact heapUp_map hf _ _ _

theorem heapPopGo_map (hf : StrictMono f) (pq : List (Item α)) :
    heapPopGo (pq.map (mapItem f)) =
      (heapPopGo pq).map (fun r => (mapItem f r.1, r.2.map (mapItem f))) := by
  unfold heapPopGo
  simp only [List.length_map, Bind.bind, Except.bind]
  rw [pqSwap_map]
  cases pqSwap pq 0 (pq.length - 1) with
  | error e => rfl
  | ok pq1 =>
    simp only [Except.map]
    have h2 : (pq1.map (mapItem f)).length = pq1.length := List.length_map _ _
    rw [h2, heapDown_map hf]
    cases heapDown pq1.length pq1 0 (pq.length - 1) with
    | error e => rfl
    | ok r =>
      simp only [Except.map]
      rw [List.getLast?_map]
      cases r.2.getLast? with
      | none => rfl
      | some it => simp [List.map_dropLast]

theorem heapFixGo_map (hf : StrictMono f) (pq : List (Item α)) (i : Nat) :
    heapFixGo (pq.map (mapItem f)) i =
      (heapFixGo pq i).map (List.map (mapItem f)) := by
  unfold heapFixGo
  simp only [List.length_map, Bind.bind, Except.bind]
  rw [heapDown_map hf]
  cases heapDown pq.length pq i pq.length with
  | error e => rfl
  | ok r =>
    simp only [Except.map]
    split
    · rfl
    · exact heapUp_map hf _ _ _

theorem visitLoop_map (hf : StrictMono f) (v : Nat) (row : List α) :
    ∀ (w : Nat) (s : PrimState α),
      visitLoop v (row.map f) w (mapState f s) =
        (visitLoop v row w s).map (mapState f) := by
  induction row with
  | nil => intro w s; rfl
  | cons dist rest ih =>
    intro w s
    simp only [List.map_cons, visitLoop, Bind.bind, Except.bind, mapState]
    cases getE s.marked w with
    | error e => rfl
    | ok mw =>
      dsimp only
      cases mw with
      | true =>
        simp only [if_pos]
        exact ih (w + 1) s
      | false =>
        simp only [Bool.false_eq_true, if_neg, not_false_iff]
        rw [getE_map]
        cases getE s.distTo w with
        | error e => rfl
        | ok dtw =>
          simp only [Except.map]
          by_cases hlt : dist < dtw
          · rw [if_pos hlt, if_pos (hf.lt_iff_lt.mpr hlt)]
            cases hm : setE s.mst w (some ⟨v, w⟩) with
            | error e => rfl
            | ok mst1 =>
              dsimp only
              rw [setE_map]
              cases hd : setE s.distTo w dist with
              | error e => rfl
              | ok distTo1 =>
                simp only [Except.map]
                rw [List.getElem?_map]
                cases hq : s.pq[w]? with
                | none =>
                  simp only [Option.map_none']
                  rw [show (⟨v, w, 0, f dist⟩ : Item β) = mapItem f ⟨v, w, 0, dist⟩ from rfl,
                    heapPushGo_map hf]
                  cases heapPushGo s.pq ⟨v, w, 0, dist⟩ with
                  | error e => rfl
                  | ok pq1 =>
                    simp only [Except.map]
                    exact ih (w + 1) ⟨s.marked, distTo1, mst1, pq1⟩
                | some item =>
                  simp only [Option.map_some', mapItem]
                  have hitem : (Item.mk item.v item.w item.index (f dist) : Item β) =
                      mapItem f (Item.mk item.v item.w item.index dist) := rfl
                  rw [hitem, setE_map]
                  cases hs : setE s.pq w (Item.mk item.v item.w item.index dist) with
                  | error e => rfl
                  | ok pq1 =>
                    simp only [Except.map]
                    rw [heapFixGo_map hf]
                    cases heapFixGo pq1 item.index with
                    | error e => rfl
                    | ok pq2 =>
                      simp only [Except.map]
                      exact ih (w + 1) ⟨s.marked, distTo1, mst1, pq2⟩
          · rw [if_neg hlt, if_neg (fun hc => hlt (hf.lt_iff_lt.mp hc))]
            exact ih (w + 1) s

theorem visitGo_map (hf : StrictMono f) (graph : List (List α)) (v : Nat)
    (s : PrimState α) :
    visitGo (graph.map (List.map f)) v (mapState f s) =
      (visitGo graph v s).map (mapState f) := by
  unfold visitGo
  simp only [Bind.bind, Except.bind, mapState]
  cases setE s.marked v true with
  | error e => rfl
  | ok marked1 =>
    dsimp only
    rw [getE_map]
    cases getE graph v with
    | error e => rfl
    | ok row =>
      dsimp only [Except.map]
      exact visitLoop_map hf v row 0 ⟨marked1, s.distTo, s.mst, s.pq⟩

theorem mstStep_map (hf : StrictMono f) (graph : List (List α))
    (s : PrimState α) :
    mstStep (graph.map (List.map f)) (mapState f s) =
      (mstStep graph s).map (mapState f) := by
  unfold mstStep
  simp only [Bind.bind, Except.bind, mapState]
  rw [heapPopGo_map hf]
  cases heapPopGo s.pq with
  | error e => rfl
  | ok r =>
    dsimp only [Except.map]
    exact visitGo_map hf graph r.1.w ⟨s.marked, s.distTo, s.mst, r.2⟩

theorem mstLoop_map (hf : StrictMono f) (graph : List (List α)) (fuel : Nat) :
    ∀ s : PrimState α,
      mstLoop (graph.map (List.map f)) fuel (mapState f s) =
        (mstLoop graph fuel s).map (mapState f) := by
  induction fuel with
  | zero =>
    intro s
    simp only [mstLoop, mapState_pq, List.length_map]
    split <;> rfl
  | succ fuel ih =>
    intro s
    simp only [mstLoop, mapState_pq, List.length_map]
    split
    · rfl
    · simp only [Bind.bind, Except.bind]
      rw [mstStep_map hf]
      cases mstStep graph s with
      | error e => rfl
      | ok s1 =>
        dsimp only [Except.map]
        exact ih s1

theorem mstIterate_map (hf : StrictMono f) (graph : List (List α)) (k : Nat) :
    ∀ s : PrimState α,
      mstIterate (graph.map (List.map f)) k (mapState f s) =
        (mstIterate graph k s).map (mapState f) := by
  induction k with
  | zero => intro s; rfl
  | succ k ih =>
    intro s
    simp only [mstIterate, Bind.bind, Except.bind]
    rw [mstStep_map hf]
    cases mstStep graph s with
    | error e => rfl
    | ok s1 =>
      dsimp only [Except.map]
      exact ih s1

theorem mstInitE_map (hf : StrictMono f) (maxVal : α) (vertices : Nat) :
    mstInitE (f maxVal) vertices =
      (mstInitE maxVal vertices).map (mapState f) := by
  unfold mstInitE
  simp only [Bind.bind, Except.bind]
  rw [show (List.replicate vertices (f maxVal)) =
    (List.replicate vertices maxVal).map f from (List.map_replicate ..).symm, setE_map]
  cases setE (List.replicate vertices maxVal) 0 maxVal with
  | error e => rfl
  | ok distTo1 =>
    dsimp only [Except.map]
    rw [show ([⟨0, 0, 0, f maxVal⟩] : List (Item β)) =
      ([⟨0, 0, 0, maxVal⟩] : List (Item α)).map (mapItem f) from rfl, heapInitGo_map hf]
    cases heapInitGo ([⟨0, 0, 0, maxVal⟩] : List (Item α)) with
    | error e => rfl
    | ok pq1 => rfl

theorem findMSTE_map (hf : StrictMono f) (maxVal : α) (vertices : Nat)
    (graph : List (List α)) :
    findMSTE (f maxVal) vertices (graph.map (List.map f)) =
      (findMSTE maxVal vertices graph).map (mapState f) := by
  unfold findMSTE
  simp only [Bind.bind, Except.bind]
  rw [mstInitE_map hf]
  cases mstInitE maxVal vertices with
  | error e => rfl
  | ok s0 =>
    dsimp only [Except.map]
    exact mstLoop_map hf graph _ s0

end Mono

theorem exceptBind_ok {ε γ δ : Type} (a : γ) (f : γ → Except ε δ) :
    (Except.ok a : Except ε γ) >>= f = f a := rfl

theorem mstLoop_step {α : Type} [LinearOrder α] (graph : List (List α))
    (fuel : Nat) (s s' : PrimState α) (h : s.pq.length ≠ 0)
    (hstep : mstStep graph s = .ok s') :
    mstLoop graph (fuel + 1) s = mstLoop graph fuel s' := by
  simp [mstLoop, h, hstep, Bind.bind, Except.bind]

theorem mstLoop_done {α : Type} [LinearOrder α] (graph : List (List α))
    (fuel : Nat) (s : PrimState α) (h : s.pq.length = 0) :
    mstLoop graph fuel s = .ok s := by
  cases fuel <;> simp [mstLoop, h]

theorem mstIterate_step {α : Type} [LinearOrder α] (graph : List (List α))
    (k : Nat) (s s' : PrimState α) (hstep : mstStep graph s = .ok s') :
    mstIterate graph (k + 1) s = mstIterate graph k s' := by
  simp [mstIterate, hstep, Bind.bind, Except.bind]

/-! ### Evaluating concrete runs

A strictly monotone `ℕ → ℝ` map with `natScale c K K = maxFloat64` lets a
concrete run of the `ℝ` solver be computed over `ℕ` (where the kernel
evaluates fast) and transported with `findMSTE_map`. -/

theorem cabs_eq_of_sq (z : ℝ × ℝ) (r : ℝ) (h : 0 ≤ r)
    (h2 : z.1 ^ 2 + z.2 ^ 2 = r ^ 2) : cabs z = r := by
  rw [cabs, h2, Real.sqrt_sq h]

theorem cabs_pair_zero (x : ℝ) : cabs (x, 0) = |x| :=
  cabs_eq_of_sq (x, 0) |x| (abs_nonneg x) (by simp [sq_abs])

theorem cabs_nonneg (z : ℝ × ℝ) : 0 ≤ cabs z :=
  Real.sqrt_nonneg _

/-- Transport map for concrete runs: `n ↦ n·c` below the sentinel key
`K`, and `maxFloat64 + (n-K)·c` from `K` on (so `natScale c K K` is
exactly `math.MaxFloat64`). -/
noncomputable def natScale (c : ℝ) (K : ℕ) : ℕ → ℝ := fun n =>
  if n < K then n * c else ((maxFloat64 : ℚ) : ℝ) + ((n - K : ℕ) : ℝ) * c

theorem natScale_lt (c : ℝ) {K n : ℕ} (h : n < K) : natScale c K n = n * c := by
  simp [natScale, h]

theorem natScale_K (c : ℝ) (K : ℕ) : natScale c K K = ((maxFloat64 : ℚ) : ℝ) := by
  simp [natScale]

theorem natScale_strictMono (c : ℝ) (K : ℕ) (hc : 0 < c)
    (hK : (K : ℝ) * c ≤ ((maxFloat64 : ℚ) : ℝ)) :
    StrictMono (natScale c K) := by
  intro a b hab
  unfold natScale
  rcases lt_or_ge a K with ha | ha
  · rcases lt_or_ge b K with hb | hb
    · rw [if_pos ha, if_pos hb]
      have : (a : ℝ) < b := by exact_mod_cast hab
      nlinarith
    · rw [if_pos ha, if_neg (not_lt.mpr hb)]
      have h1 : (a : ℝ) < (K : ℝ) := by exact_mod_cast ha
      have h2 : (0 : ℝ) ≤ ((b - K : ℕ) : ℝ) * c := by positivity
      nlinarith
  · have hb : K ≤ b := le_trans ha (le_of_lt hab)
    rw [if_neg (not_lt.mpr ha), if_neg (not_lt.mpr hb)]
    have h1 : a - K < b - K := Nat.sub_lt_sub_right ha hab
    have h2 : ((a - K : ℕ) : ℝ) < ((b - K : ℕ) : ℝ) := by exact_mod_cast h1
    nlinarith

/-- A concrete `findMSTR` run equals the `ℕ`-level run whenever the real
distance matrix is the `natScale`-image of a natural-number matrix. -/
theorem findMSTR_transport (loc : List Point) (gN : List (List ℕ)) (c : ℝ)
    (K : ℕ) (hc : 0 < c) (hK : (K : ℝ) * c ≤ ((maxFloat64 : ℚ) : ℝ))
    (hgraph : findDistances loc = gN.map (List.map (natScale c K))) :
    findMSTR loc (findDistances loc) =
      (findMSTE K loc.length gN).map (fun s => ((none : Option String), s.mst)) := by
  unfold findMSTR
  rw [hgraph, ← natScale_K c K, findMSTE_map (natScale_strictMono c K hc hK)]
  cases findMSTE K loc.length gN with
  | error e => rfl
  | ok s => rfl

/-! ### The grid rasterizer: `plotMST`

```go
func (p *PrimMST) plotMST(w http.ResponseWriter, status []string) error {
    plot.Grid = make([]string, rows*columns)
    xscale = (columns - 1) / (p.xmax - p.xmin)
    yscale = (rows - 1) / (p.ymax - p.ymin)
    beginEP := complex(p.xmin, p.ymin)
    endEP := complex(p.xmax, p.ymax)
    lenEP := cmplx.Abs(endEP - beginEP)
    for _, e := range p.mst[1:] {
        beginEdge := p.location[e.v]
        endEdge := p.location[e.w]
        lenEdge := cmplx.Abs(endEdge - beginEdge)
        distance += lenEdge
        ncells := int(columns * lenEdge / lenEP)
        ...interpolate ncells points, marking each cell "edge"...
        ...mark both endpoint cells "vertex"...
    }
    ...mark the start vertex cell and its four neighbours "startvertex"...
    ...axis labels, status and the fmt.Sprintf summary strings...
    return nil
}
```
The grid is a flat `[]string` of length `rows*columns`, modelled as a
function `ℤ → String` with every write bounds-checked (`setCell`), since
a Go write at a flat index outside `[0, rows*columns)` panics.  `int(f)`
conversion truncates toward zero (`goInt`).  When `ncells = 0` the Go
step expressions divide by zero giving NaN, but the interpolation loop
body never runs and the x/y accumulators are not read afterwards; the
model's `x / 0 = 0` convention is equally unobservable.  The axis-label,
status and `fmt.Sprintf` summary strings are pure presentation
formatting and are not modelled; the reported MST distance is modelled
as the accumulated `distance` value before formatting. -/

/-- The graph endpoints `(xmin, xmax, ymin, ymax)` (`type Endpoints`). -/
structure Endpoints where
  xmin : ℝ
  xmax : ℝ
  ymin : ℝ
  ymax : ℝ

/-- Go `int(x)` conversion for `float64`: truncation toward zero. -/
noncomputable def goInt (x : ℝ) : ℤ :=
  if 0 ≤ x then ⌊x⌋ else -⌊-x⌋

/-- The rasterizer's flat `rows*columns` cell grid, as a function from
flat index to CSS class (all cells start as the empty string). -/
def Grid : Type := ℤ → String

/-- Checked grid write: Go `plot.Grid[idx] = s` panics when
`idx < 0` or `idx ≥ rows*columns`. -/
noncomputable def setCell (g : Grid) (idx : ℤ) (s : String) : Except String Grid :=
  if 0 ≤ idx ∧ idx < (rows * columns : ℕ) then
    .ok (Function.update g idx s)
  else .error "grid index out of range"

/-- `xscale = (columns - 1) / (p.xmax - p.xmin)`. -/
noncomputable def xscaleOf (ep : Endpoints) : ℝ :=
  ((columns : ℝ) - 1) / (ep.xmax - ep.xmin)

/-- `yscale = (rows - 1) / (p.ymax - p.ymin)`. -/
noncomputable def yscaleOf (ep : Endpoints) : ℝ :=
  ((rows : ℝ) - 1) / (ep.ymax - ep.ymin)

/-- `row := int((p.ymax-y)*yscale + .5)`. -/
noncomputable def rowOf (ep : Endpoints) (y : ℝ) : ℤ :=
  goInt ((ep.ymax - y) * yscaleOf ep + 1 / 2)

/-- `col := int((x-p.xmin)*xscale + .5)`. -/
noncomputable def colOf (ep : Endpoints) (x : ℝ) : ℤ :=
  goInt ((x - ep.xmin) * xscaleOf ep + 1 / 2)

/-- Flat grid index of the cell a point projects to:
`row*columns + col`. -/
noncomputable def projIdx (ep : Endpoints) (p : Point) : ℤ :=
  rowOf ep p.2 * (columns : ℕ) + colOf ep p.1

/-- `ncells := int(columns * lenEdge / lenEP)`. -/
noncomputable def ncellsOf (lenEP lenEdge : ℝ) : ℤ :=
  goInt ((columns : ℝ) * lenEdge / lenEP)

/-- `lenEP := cmplx.Abs(endEP - beginEP)`: length of the bounding-box
diagonal. -/
noncomputable def lenEPOf (ep : Endpoints) : ℝ :=
  cabs ((ep.xmax, ep.ymax) - (ep.xmin, ep.ymin))

/-- The edge-interpolation loop
`for i := 0; i < ncells; i++ { ...mark (row,col) "edge"...; x += stepX; y += stepY }`,
by countdown on the number of remaining iterations. -/
noncomputable def drawEdgeLoop (ep : Endpoints) (stepX stepY : ℝ) :
    Nat → ℝ → ℝ → Grid → Except String Grid
  | 0, _, _, grid => .ok grid
  | n + 1, x, y, grid => do
    let row := rowOf ep y
    let col := colOf ep x
    let grid ← setCell grid (row * (columns : ℕ) + col) "edge"
    drawEdgeLoop ep stepX stepY n (x + stepX) (y + stepY) grid

/-- Process one entry of `p.mst[1:]`: a `nil` entry dereferences a nil
pointer; otherwise accumulate the edge length into `distance`, draw the
interpolated edge cells, then mark the two endpoint cells "vertex". -/
noncomputable def plotEdge (loc : List Point) (ep : Endpoints) (lenEP : ℝ)
    (acc : Grid × ℝ) (e : Option Edge) : Except String (Grid × ℝ) := do
  match e with
  | none => .error "nil pointer dereference"
  | some e => do
    let beginEdge ← getE loc e.v
    let endEdge ← getE loc e.w
    let lenEdge := cabs (endEdge - beginEdge)
    let distance := acc.2 + lenEdge
    let ncells := ncellsOf lenEP lenEdge
    let beginX := beginEdge.1
    let endX := endEdge.1
    let deltaX := endX - beginX
    let stepX := deltaX / (ncells : ℝ)
    let beginY := beginEdge.2
    let endY := endEdge.2
    let deltaY := endY - beginY
    let stepY := deltaY / (ncells : ℝ)
    let grid ← drawEdgeLoop ep stepX stepY ncells.toNat beginX beginY acc.1
    let grid ← setCell grid (rowOf ep beginY * (columns : ℕ) + colOf ep beginX) "vertex"
    let grid ← setCell grid (rowOf ep endY * (columns : ℕ) + colOf ep endX) "vertex"
    .ok (grid, distance)

/-- Result of the rasterizer: the cell grid and the accumulated total
MST distance (reported by the program as `fmt.Sprintf("%.2f", distance)`). -/
structure PlotResult where
  grid : Grid
  distance : ℝ

/-- `plotMST`: scale factors, the per-edge loop over `p.mst[1:]` (Go
slicing panics when `len(p.mst) < 1`), then the start vertex block: mark
`p.location[0]`'s cell and its four direct neighbours "startvertex". -/
noncomputable def plotMST (loc : List Point) (ep : Endpoints)
    (mst : List (Option Edge)) : Except String PlotResult := do
  let grid0 : Grid := fun _ => ""
  if mst.length < 1 then .error "slice bounds out of range" else do
  let r ← (mst.drop 1).foldlM (plotEdge loc ep (lenEPOf ep)) (grid0, (0 : ℝ))
  let start ← getE loc 0
  let row := rowOf ep start.2
  let col := colOf ep start.1
  let grid ← setCell r.1 (row * (columns : ℕ) + col) "startvertex"
  let grid ← setCell grid ((row + 1) * (columns : ℕ) + col) "startvertex"
  let grid ← setCell grid ((row - 1) * (columns : ℕ) + col) "startvertex"
  let grid ← setCell grid (row * (columns : ℕ) + col + 1) "startvertex"
  let grid ← setCell grid (row * (columns : ℕ) + col - 1) "startvertex"
  .ok { grid := grid, distance := r.2 }

/-- The Go `error` result of `plotMST` is `nil` whenever the function
returns (its only failure modes are panics, modelled as `Except.error`). -/
def plotMSTErr : Option String :=
  none

/-! ### Concrete solver runs (computed over ℕ, transported to ℝ)

States were checked against a reference execution of the Go program's
algorithm; each `step` lemma evaluates one `heap.Pop` + `visit`
iteration. -/

/-- The ℕ-scaled distance matrix of four collinear points with
x-order `0, 2, 1, 3` (sentinel key 1000). -/
def graphA : List (List ℕ) :=
  [[1000, 2, 1, 3], [2, 1000, 1, 1], [1, 1, 1000, 2], [3, 1, 2, 1000]]

/-- Solver state after 0 iterations on `graphA`. -/
def sA0 : PrimState ℕ := ⟨[false,false,false,false],[1000,1000,1000,1000],[none,none,none,none],[⟨0,0,0,1000⟩]⟩

/-- Solver state after 1 iterations on `graphA`. -/
def sA1 : PrimState ℕ := ⟨[true,false,false,false],[1000,2,1,3],[none,some ⟨0,1⟩,some ⟨0,2⟩,some ⟨0,3⟩],[⟨0,2,0,1⟩,⟨0,1,1,2⟩,⟨0,3,2,3⟩]⟩

/-- Solver state after 2 iterations on `graphA`. -/
def sA2 : PrimState ℕ := ⟨[true,false,true,false],[1000,1,1,2],[none,some ⟨2,1⟩,some ⟨0,2⟩,some ⟨2,3⟩],[⟨0,3,0,1⟩,⟨0,1,1,2⟩,⟨2,3,2,2⟩]⟩

/-- Solver state after 3 iterations on `graphA`. -/
def sA3 : PrimState ℕ := ⟨[true,false,true,true],[1000,1,1,2],[none,some ⟨2,1⟩,some ⟨0,2⟩,some ⟨2,3⟩],[⟨2,3,0,2⟩,⟨0,1,1,2⟩]⟩

/-- Solver state after 4 iterations on `graphA`. -/
def sA4 : PrimState ℕ := ⟨[true,false,true,true],[1000,1,1,2],[none,some ⟨2,1⟩,some ⟨0,2⟩,some ⟨2,3⟩],[⟨0,1,0,2⟩]⟩

/-- Solver state after 5 iterations on `graphA`. -/
def sA5 : PrimState ℕ := ⟨[true,true,true,true],[1000,1,1,2],[none,some ⟨2,1⟩,some ⟨0,2⟩,some ⟨2,3⟩],[]⟩

theorem initA : mstInitE (1000 : ℕ) 4 = .ok sA0 := by
  simp [mstInitE, heapInitGo, heapDown, pqLess, getE, setE, sA0, List.replicate,
    Bind.bind, Except.bind, pure, Except.pure, List.range, List.range.loop]

theorem stepA0 : mstStep graphA sA0 = .ok sA1 := by
  simp [graphA, sA0, sA1, mstStep, visitGo, visitLoop, heapPopGo, heapPushGo, heapFixGo, heapUp, heapDown, pqSwap, pqLess, getE, setE, Bind.bind, Except.bind, pure, Except.pure]

theorem stepA1 : mstStep graphA sA1 = .ok sA2 := by
  simp [graphA, sA1, sA2, mstStep, visitGo, visitLoop, heapPopGo, heapPushGo, heapFixGo, heapUp, heapDown, pqSwap, pqLess, getE, setE, Bind.bind, Except.bind, pure, Except.pure]

theorem stepA2 : mstStep graphA sA2 = .ok sA3 := by
  simp [graphA, sA2, sA3, mstStep, visitGo, visitLoop, heapPopGo, heapPushGo, heapFixGo, heapUp, heapDown, pqSwap, pqLess, getE, setE, Bind.bind, Except.bind, pure, Except.pure]

theorem stepA3 : mstStep graphA sA3 = .ok sA4 := by
  simp [graphA, sA3, sA4, mstStep, visitGo, visitLoop, heapPopGo, heapPushGo, heapFixGo, heapUp, heapDown, pqSwap, pqLess, getE, setE, Bind.bind, Except.bind, pure, Except.pure]

theorem stepA4 : mstStep graphA sA4 = .ok sA5 := by
  simp [graphA, sA4, sA5, mstStep, visitGo, visitLoop, heapPopGo, heapPushGo, heapFixGo, heapUp, heapDown, pqSwap, pqLess, getE, setE, Bind.bind, Except.bind, pure, Except.pure]

theorem runA : findMSTE 1000 4 graphA = .ok sA5 := by
  have e1 : mstLoop graphA 22 sA0 = mstLoop graphA 21 sA1 :=
    mstLoop_step graphA 21 sA0 sA1 (by simp [sA0]) stepA0
  have e2 : mstLoop graphA 21 sA1 = mstLoop graphA 20 sA2 :=
    mstLoop_step graphA 20 sA1 sA2 (by simp [sA1]) stepA1
  have e3 : mstLoop graphA 20 sA2 = mstLoop graphA 19 sA3 :=
    mstLoop_step graphA 19 sA2 sA3 (by simp [sA2]) stepA2
  have e4 : mstLoop graphA 19 sA3 = mstLoop graphA 18 sA4 :=
    mstLoop_step graphA 18 sA3 sA4 (by simp [sA3]) stepA3
  have e5 : mstLoop graphA 18 sA4 = mstLoop graphA 17 sA5 :=
    mstLoop_step graphA 17 sA4 sA5 (by simp [sA4]) stepA4
  have e6 : mstLoop graphA 17 sA5 = .ok sA5 :=
    mstLoop_done graphA 17 sA5 (by simp [sA5])
  have e0 : findMSTE 1000 4 graphA = mstLoop graphA 22 sA0 := by
    unfold findMSTE
    rw [initA, exceptBind_ok]
  rw [e0, e1, e2, e3, e4, e5, e6]

theorem iterA2 : (do
    let s0 ← mstInitE (1000 : ℕ) 4
    mstIterate graphA 2 s0 : Except String (PrimState ℕ)) = .ok sA2 := by
  have e1 : mstIterate graphA 2 sA0 = mstIterate graphA 1 sA1 :=
    mstIterate_step graphA 1 sA0 sA1 stepA0
  have e2 : mstIterate graphA 1 sA1 = mstIterate graphA 0 sA2 :=
    mstIterate_step graphA 0 sA1 sA2 stepA1
  rw [initA, exceptBind_ok]
  rw [e1, e2]
  rfl

/-- ℕ-scaled matrix of two coincident points (distance 0). -/
def graphC : List (List ℕ) := [[1000, 0], [0, 1000]]

/-- ℕ-scaled matrix of two points at Euclidean distance exactly
`math.MaxFloat64`. -/
def graphD : List (List ℕ) := [[1000, 1000], [1000, 1000]]

/-- Initial solver state for two vertices. -/
def sC0 : PrimState ℕ := ⟨[false,false],[1000,1000],[none,none],[⟨0,0,0,1000⟩]⟩

/-- State after one iteration on `graphC`. -/
def sC1 : PrimState ℕ := ⟨[true,false],[1000,0],[none,some ⟨0,1⟩],[⟨0,1,0,0⟩]⟩

/-- State after two iterations on `graphC`. -/
def sC2 : PrimState ℕ := ⟨[true,true],[1000,0],[none,some ⟨0,1⟩],[]⟩

/-- Final state on `graphD`: vertex 1 is never enqueued because
`1000 < 1000` fails. -/
def sD1 : PrimState ℕ := ⟨[true,false],[1000,1000],[none,none],[]⟩

theorem init2 : mstInitE (1000 : ℕ) 2 = .ok sC0 := by
  simp [mstInitE, heapInitGo, heapDown, pqLess, getE, setE, sC0, List.replicate,
    Bind.bind, Except.bind, pure, Except.pure, List.range, List.range.loop]

theorem stepC0 : mstStep graphC sC0 = .ok sC1 := by
  simp [graphC, sC0, sC1, mstStep, visitGo, visitLoop, heapPopGo, heapPushGo, heapFixGo, heapUp, heapDown, pqSwap, pqLess, getE, setE, Bind.bind, Except.bind, pure, Except.pure]

theorem stepC1 : mstStep graphC sC1 = .ok sC2 := by
  simp [graphC, sC1, sC2, mstStep, visitGo, visitLoop, heapPopGo, heapPushGo, heapFixGo, heapUp, heapDown, pqSwap, pqLess, getE, setE, Bind.bind, Except.bind, pure, Except.pure]

theorem stepD0 : mstStep graphD sC0 = .ok sD1 := by
  simp [graphD, sC0, sD1, mstStep, visitGo, visitLoop, heapPopGo, heapPushGo, heapFixGo, heapUp, heapDown, pqSwap, pqLess, getE, setE, Bind.bind, Except.bind, pure, Except.pure]

theorem runC : findMSTE 1000 2 graphC = .ok sC2 := by
  have e1 : mstLoop graphC 8 sC0 = mstLoop graphC 7 sC1 :=
    mstLoop_step graphC 7 sC0 sC1 (by simp [sC0]) stepC0
  have e2 : mstLoop graphC 7 sC1 = mstLoop graphC 6 sC2 :=
    mstLoop_step graphC 6 sC1 sC2 (by simp [sC1]) stepC1
  have e3 : mstLoop graphC 6 sC2 = .ok sC2 :=
    mstLoop_done graphC 6 sC2 (by simp [sC2])
  have e0 : findMSTE 1000 2 graphC = mstLoop graphC 8 sC0 := by
    unfold findMSTE
    rw [init2, exceptBind_ok]
  rw [e0, e1, e2, e3]

theorem runD : findMSTE 1000 2 graphD = .ok sD1 := by
  have e1 : mstLoop graphD 8 sC0 = mstLoop graphD 7 sD1 :=
    mstLoop_step graphD 7 sC0 sD1 (by simp [sC0]) stepD0
  have e2 : mstLoop graphD 7 sD1 = .ok sD1 :=
    mstLoop_done graphD 7 sD1 (by simp [sD1])
  have e0 : findMSTE 1000 2 graphD = mstLoop graphD 8 sC0 := by
    unfold findMSTE
    rw [init2, exceptBind_ok]
  rw [e0, e1, e2]


/-! ### The concrete point sets -/

/-- Four collinear points with x-coordinates `0, 2, 1, 3` (vertex order). -/
def locA : List Point := [(0, 0), (2, 0), (1, 0), (3, 0)]

/-- The same configuration scaled by `1/50` and placed inside the
bounding box `(0,0)-(3,4)` at height `y = 2`. -/
noncomputable def locE : List Point := [(1, 2), (26 / 25, 2), (51 / 50, 2), (53 / 50, 2)]

/-- Two coincident points inside the bounding box `(0,0)-(3,4)`. -/
def locC7 : List Point := [(1, 2), (1, 2)]

/-- Two distinct points at Euclidean distance exactly `math.MaxFloat64`. -/
noncomputable def locD : List Point := [(0, 0), (((maxFloat64 : ℚ) : ℝ), 0)]

/-- Two points twice `math.MaxFloat64` apart. -/
noncomputable def locF : List Point := [(0, 0), (2 * ((maxFloat64 : ℚ) : ℝ), 0)]

theorem graphA_eq : findDistances locA = graphA.map (List.map (natScale 1 1000)) := by
  simp [locA, graphA, findDistances, findDistancesInner, set2, List.range, List.range.loop,
    List.range', cabs_pair_zero, natScale]
  norm_num

theorem graphE_eq : findDistances locE = graphA.map (List.map (natScale (1 / 50) 1000)) := by
  simp [locE, graphA, findDistances, findDistancesInner, set2, List.range, List.range.loop,
    List.range', cabs_pair_zero, natScale]
  norm_num

theorem cabs_zero : cabs 0 = 0 :=
  cabs_eq_of_sq 0 0 le_rfl (by norm_num)

theorem graphC_eq : findDistances locC7 = graphC.map (List.map (natScale 1 1000)) := by
  simp [locC7, graphC, findDistances, findDistancesInner, set2, List.range, List.range.loop,
    List.range', cabs_pair_zero, cabs_zero, natScale]

theorem graphD_eq : findDistances locD = graphD.map (List.map (natScale 1 1000)) := by
  simp [locD, graphD, findDistances, findDistancesInner, set2, List.range, List.range.loop,
    List.range', cabs_pair_zero, natScale]
  norm_num [maxFloat64]


/-! ### Solver results on the concrete point sets -/

/-- The tree the solver actually records on `locA`. -/
def treeA : List (Option Edge) := [none, some ⟨2, 1⟩, some ⟨0, 2⟩, some ⟨2, 3⟩]

/-- An alternative spanning tree on four vertices: the collinear chain. -/
def chainA : List (Option Edge) := [none, some ⟨2, 1⟩, some ⟨0, 2⟩, some ⟨1, 3⟩]

theorem maxFloat64_big : (1000 : ℝ) * 1 ≤ ((maxFloat64 : ℚ) : ℝ) := by
  norm_num [maxFloat64]

theorem findMSTR_locA :
    findMSTR locA (findDistances locA) = .ok (none, treeA) := by
  have hlen : locA.length = 4 := rfl
  have h := findMSTR_transport locA graphA 1 1000 one_pos maxFloat64_big graphA_eq
  rw [hlen] at h
  rw [h, runA]
  rfl

theorem findMSTR_locE :
    findMSTR locE (findDistances locE) = .ok (none, treeA) := by
  have hK : (1000 : ℝ) * (1 / 50) ≤ ((maxFloat64 : ℚ) : ℝ) := by
    norm_num [maxFloat64]
  have hlen : locE.length = 4 := rfl
  have h := findMSTR_transport locE graphA (1 / 50) 1000 (by norm_num) hK graphE_eq
  rw [hlen] at h
  rw [h, runA]
  rfl

theorem findMSTR_locC7 :
    findMSTR locC7 (findDistances locC7) = .ok (none, [none, some ⟨0, 1⟩]) := by
  have hlen : locC7.length = 2 := rfl
  have h := findMSTR_transport locC7 graphC 1 1000 one_pos maxFloat64_big graphC_eq
  rw [hlen] at h
  rw [h, runC]
  rfl

theorem findMSTR_locD :
    findMSTR locD (findDistances locD) = .ok (none, [none, none]) := by
  have hlen : locD.length = 2 := rfl
  have h := findMSTR_transport locD graphD 1 1000 one_pos maxFloat64_big graphD_eq
  rw [hlen] at h
  rw [h, runD]
  rfl

/-- Intermediate-state transport: the first `k` solver iterations over the
real matrix are the `natScale`-image of the `ℕ`-level iterations. -/
theorem mstIterateR_transport (loc : List Point) (gN : List (List ℕ)) (c : ℝ)
    (K : ℕ) (hc : 0 < c) (hK : (K : ℝ) * c ≤ ((maxFloat64 : ℚ) : ℝ))
    (hgraph : findDistances loc = gN.map (List.map (natScale c K))) (k : Nat) :
    (do
      let s0 ← mstInitE ((maxFloat64 : ℚ) : ℝ) loc.length
      mstIterate (findDistances loc) k s0) =
      ((do
        let s0 ← mstInitE K loc.length
        mstIterate gN k s0 : Except String (PrimState ℕ))).map
          (mapState (natScale c K)) := by
  have hf := natScale_strictMono c K hc hK
  rw [hgraph, ← natScale_K c K, mstInitE_map hf]
  cases mstInitE K loc.length with
  | error e => rfl
  | ok s0 =>
    rw [exceptBind_ok]
    show mstIterate (gN.map (List.map (natScale c K))) k (mapState (natScale c K) s0) = _
    rw [mstIterate_map hf]

/-- After two iterations on `locA`, the real solver's queue holds items
for vertices `3, 1, 3`: vertex 3 has two live items. -/
theorem mstIterate_locA_dup :
    ∃ s, (do
      let s0 ← mstInitE ((maxFloat64 : ℚ) : ℝ) locA.length
      mstIterate (findDistances locA) 2 s0) = .ok s ∧
      s.pq.map (fun it => it.w) = [3, 1, 3] := by
  have h := mstIterateR_transport locA graphA 1 1000 one_pos maxFloat64_big graphA_eq 2
  refine ⟨mapState (natScale 1 1000) sA2, ?_, by simp [mapState, sA2, mapItem]⟩
  rw [h]
  have hlen : locA.length = 4 := rfl
  rw [hlen, iterA2]
  rfl

/-! ### Spanning trees and total tree weight -/

/-- Euclidean length of one recorded edge, recomputed from the point
locations (`0` for an absent entry). -/
noncomputable def edgeLenOf (loc : List Point) (e : Option Edge) : ℝ :=
  match e with
  | some e => cabs (loc.getD e.w default - loc.getD e.v default)
  | none => 0

/-- Total weight of a recorded tree: the sum, over the entries at indices
`1..V-1`, of the Euclidean distance between the edge's two endpoint
coordinates, recomputed from the point locations. -/
noncomputable def mstTotalDistance (loc : List Point) (mst : List (Option Edge)) : ℝ :=
  ((mst.drop 1).map (edgeLenOf loc)).sum

/-- `reachIn mst n w`: vertex `w` reaches vertex `0` in at most `n` steps
of the parent map `w ↦ (mst[w]).v`. -/
def reachIn (mst : List (Option Edge)) : Nat → Nat → Bool
  | 0, w => w == 0
  | n + 1, w =>
    w == 0 ||
      match mst.getD w none with
      | some e => reachIn mst n e.v
      | none => false

/-- The recorded entry for vertex `w` is a well-formed parent edge:
present, with `e.w = w`, `e.v < V` and `e.v ≠ w`. -/
def edgeOKb (V : Nat) (mst : List (Option Edge)) (w : Nat) : Bool :=
  match mst.getD w none with
  | some e => e.w == w && decide (e.v < V) && !(e.v == w)
  | none => false

/-- The recorded sequence is a spanning tree of the `V` vertices rooted at
the start vertex `0`: entry `0` is empty, entries `1..V-1` hold exactly
`V-1` well-formed parent edges, and every vertex reaches vertex `0`
through the parent map (which makes the edge set connected and acyclic). -/
def isSpanningTree (V : Nat) (mst : List (Option Edge)) : Prop :=
  mst.length = V ∧ mst.getD 0 none = none ∧
    (∀ w, w < V → 1 ≤ w → edgeOKb V mst w = true) ∧
    (∀ w, w < V → reachIn mst V w = true)

theorem treeA_weight : mstTotalDistance locA treeA = 4 := by
  simp [mstTotalDistance, edgeLenOf, locA, treeA, cabs_pair_zero]
  norm_num

theorem chainA_weight : mstTotalDistance locA chainA = 3 := by
  simp [mstTotalDistance, edgeLenOf, locA, chainA, cabs_pair_zero]
  norm_num

theorem chainA_spanning : isSpanningTree 4 chainA := by
  constructor
  · rfl
  constructor
  · rfl
  constructor
  · decide
  · decide

theorem findMSTR_err_none (loc : List Point) (g : List (List ℝ))
    (r : Option String × List (Option Edge)) (h : findMSTR loc g = .ok r) :
    r.1 = none := by
  unfold findMSTR at h
  cases he : findMSTE ((maxFloat64 : ℚ) : ℝ) loc.length g with
  | error e =>
    rw [he] at h
    exact absurd h (by simp [Bind.bind, Except.bind])
  | ok s =>
    rw [he, exceptBind_ok] at h
    simp only [Except.ok.injEq] at h
    rw [← h]

theorem findMSTR_empty :
    findMSTR [] (findDistances []) = .error "index out of range" := by
  have h : findDistances [] = [] := by simp [findDistances]
  rw [h]
  rfl

/-! ### Rasterizer bounds lemmas -/

/-- Membership of a point in the bounding box (inclusive). -/
def inBox (ep : Endpoints) (p : Point) : Prop :=
  ep.xmin ≤ p.1 ∧ p.1 ≤ ep.xmax ∧ ep.ymin ≤ p.2 ∧ p.2 ≤ ep.ymax

theorem goInt_eq (x : ℝ) (k : ℤ) (h1 : (k : ℝ) ≤ x) (h2 : x < k + 1)
    (h0 : 0 ≤ x) : goInt x = k := by
  rw [goInt, if_pos h0]
  exact Int.floor_eq_iff.mpr ⟨h1, h2⟩

theorem goInt_nonneg_bounds (x : ℝ) (b : ℤ) (h0 : 0 ≤ x) (hb : x < b + 1) :
    0 ≤ goInt x ∧ goInt x ≤ b := by
  rw [goInt, if_pos h0]
  refine ⟨Int.floor_nonneg.mpr h0, ?_⟩
  have h2 : ⌊x⌋ < b + 1 := Int.floor_lt.mpr (by push_cast; linarith)
  omega

theorem setCell_ok (g : Grid) (idx : ℤ) (s : String) (h0 : 0 ≤ idx)
    (h1 : idx < ((rows * columns : ℕ) : ℤ)) :
    setCell g idx s = .ok (Function.update g idx s) := by
  have h2 : idx < ((rows : ℕ) : ℤ) * ((columns : ℕ) : ℤ) := by push_cast at h1 ⊢; linarith
  simp [setCell, h0, h1, h2]

theorem setCell_ok_inv {g : Grid} {idx : ℤ} {s : String} {g' : Grid}
    (h : setCell g idx s = .ok g') : g' = Function.update g idx s := by
  unfold setCell at h
  split at h
  · simp_all
  · simp_all

theorem cabs_le_cabs (z z' : ℝ × ℝ) (h1 : |z.1| ≤ |z'.1|) (h2 : |z.2| ≤ |z'.2|) :
    cabs z ≤ cabs z' := by
  apply Real.sqrt_le_sqrt
  have e1 : z.1 ^ 2 ≤ z'.1 ^ 2 := by
    rw [← sq_abs z.1, ← sq_abs z'.1]
    exact pow_le_pow_left₀ (abs_nonneg _) h1 2
  have e2 : z.2 ^ 2 ≤ z'.2 ^ 2 := by
    rw [← sq_abs z.2, ← sq_abs z'.2]
    exact pow_le_pow_left₀ (abs_nonneg _) h2 2
  linarith

theorem cabs_ge_fst (z : ℝ × ℝ) : |z.1| ≤ cabs z := by
  rw [← Real.sqrt_sq_eq_abs]
  apply Real.sqrt_le_sqrt
  nlinarith [sq_nonneg z.2]

theorem lenEPOf_pos (ep : Endpoints) (hx : ep.xmin < ep.xmax) : 0 < lenEPOf ep := by
  have h1 : (0 : ℝ) < ep.xmax - ep.xmin := by linarith
  have h2 := cabs_ge_fst ((ep.xmax, ep.ymax) - (ep.xmin, ep.ymin))
  rw [lenEPOf]
  have h3 : |((ep.xmax, ep.ymax) - (ep.xmin, ep.ymin) : ℝ × ℝ).1| = ep.xmax - ep.xmin := by
    simp only [Prod.fst_sub]
    exact abs_of_pos h1
  rw [h3] at h2
  linarith

theorem lenEdge_le_lenEP (ep : Endpoints) (p q : Point)
    (hp : inBox ep p) (hq : inBox ep q) : cabs (q - p) ≤ lenEPOf ep := by
  obtain ⟨hp1, hp2, hp3, hp4⟩ := hp
  obtain ⟨hq1, hq2, hq3, hq4⟩ := hq
  apply cabs_le_cabs
  · simp only [Prod.fst_sub]
    rw [abs_le]
    have h0 : (0:ℝ) ≤ ep.xmax - ep.xmin := by linarith
    rw [abs_of_nonneg h0]
    constructor <;> linarith
  · simp only [Prod.snd_sub]
    rw [abs_le]
    have h0 : (0:ℝ) ≤ ep.ymax - ep.ymin := by linarith
    rw [abs_of_nonneg h0]
    constructor <;> linarith

theorem ncellsOf_bounds (ep : Endpoints) (l : ℝ) (hx : ep.xmin < ep.xmax)
    (h0 : 0 ≤ l) (hle : l ≤ lenEPOf ep) :
    0 ≤ ncellsOf (lenEPOf ep) l ∧ ncellsOf (lenEPOf ep) l ≤ (columns : ℕ) := by
  have hL := lenEPOf_pos ep hx
  have harg0 : 0 ≤ (columns : ℝ) * l / lenEPOf ep := by positivity
  have harg1 : (columns : ℝ) * l / lenEPOf ep ≤ ((columns : ℕ) : ℝ) := by
    rw [div_le_iff hL]
    have h2 : (columns : ℝ) * l ≤ (columns : ℝ) * lenEPOf ep :=
      mul_le_mul_of_nonneg_left hle (by positivity)
    exact h2
  exact goInt_nonneg_bounds _ _ harg0 (by push_cast at harg1 ⊢; linarith)

theorem rowOf_bounds (ep : Endpoints) (y : ℝ) (hy : ep.ymin < ep.ymax)
    (h1 : ep.ymin ≤ y) (h2 : y ≤ ep.ymax) :
    0 ≤ rowOf ep y ∧ rowOf ep y < ((rows : ℕ) : ℤ) := by
  have hd : (0 : ℝ) < ep.ymax - ep.ymin := by linarith
  have hrows : ((rows : ℕ) : ℝ) - 1 = 299 := by norm_num [rows]
  have hmain : (ep.ymax - y) * yscaleOf ep ≤ 299 := by
    rw [yscaleOf, hrows]
    have heq : (ep.ymax - y) * (299 / (ep.ymax - ep.ymin)) =
        299 * ((ep.ymax - y) / (ep.ymax - ep.ymin)) := by ring
    rw [heq]
    have hfrac : (ep.ymax - y) / (ep.ymax - ep.ymin) ≤ 1 := by
      rw [div_le_one hd]
      linarith
    nlinarith [hfrac]
  have h0 : 0 ≤ (ep.ymax - y) * yscaleOf ep := by
    apply mul_nonneg (by linarith)
    rw [yscaleOf, hrows]
    positivity
  have hb := goInt_nonneg_bounds ((ep.ymax - y) * yscaleOf ep + 1 / 2) 299
    (by linarith) (by push_cast; linarith)
  rw [rowOf]
  refine ⟨hb.1, ?_⟩
  have : ((rows : ℕ) : ℤ) = 300 := by norm_num [rows]
  omega

theorem colOf_bounds (ep : Endpoints) (x : ℝ) (hx : ep.xmin < ep.xmax)
    (h1 : ep.xmin ≤ x) (h2 : x ≤ ep.xmax) :
    0 ≤ colOf ep x ∧ colOf ep x < ((columns : ℕ) : ℤ) := by
  have hd : (0 : ℝ) < ep.xmax - ep.xmin := by linarith
  have hcols : ((columns : ℕ) : ℝ) - 1 = 299 := by norm_num [columns, rows]
  have hmain : (x - ep.xmin) * xscaleOf ep ≤ 299 := by
    rw [xscaleOf, hcols]
    have heq : (x - ep.xmin) * (299 / (ep.xmax - ep.xmin)) =
        299 * ((x - ep.xmin) / (ep.xmax - ep.xmin)) := by ring
    rw [heq]
    have hfrac : (x - ep.xmin) / (ep.xmax - ep.xmin) ≤ 1 := by
      rw [div_le_one hd]
      linarith
    nlinarith [hfrac]
  have h0 : 0 ≤ (x - ep.xmin) * xscaleOf ep := by
    apply mul_nonneg (by linarith)
    rw [xscaleOf, hcols]
    positivity
  have hb := goInt_nonneg_bounds ((x - ep.xmin) * xscaleOf ep + 1 / 2) 299
    (by linarith) (by push_cast; linarith)
  rw [colOf]
  refine ⟨hb.1, ?_⟩
  have : ((columns : ℕ) : ℤ) = 300 := by norm_num [columns, rows]
  omega

/-- A valid `(row, col)` pair gives an in-range flat index. -/
theorem flatIdx_bounds (row col : ℤ) (hr0 : 0 ≤ row) (hr1 : row < ((rows : ℕ) : ℤ))
    (hc0 : 0 ≤ col) (hc1 : col < ((columns : ℕ) : ℤ)) :
    0 ≤ row * (columns : ℕ) + col ∧
      row * (columns : ℕ) + col < ((rows * columns : ℕ) : ℤ) := by
  have e1 : ((rows : ℕ) : ℤ) = 300 := by norm_num [rows]
  have e2 : ((columns : ℕ) : ℤ) = 300 := by norm_num [columns, rows]
  have e3 : ((rows * columns : ℕ) : ℤ) = 90000 := by norm_num [rows, columns]
  rw [e2] at hc1
  rw [e1] at hr1
  constructor
  · have : (0:ℤ) ≤ row * (columns : ℕ) := by positivity
    omega
  · rw [e3]
    have : row * ((columns : ℕ) : ℤ) ≤ 299 * 300 := by
      rw [e2]
      nlinarith
    omega


theorem getE_ok_getD {β : Type} [Inhabited β] (l : List β) (i : Nat)
    (h : i < l.length) : getE l i = .ok (l.getD i default) := by
  rw [getE_ok l i h]
  congr 1
  rw [List.getD_eq_getElem?_getD, List.getElem?_eq_getElem h]
  simp

theorem getD_mem {β : Type} [Inhabited β] (l : List β) (i : Nat)
    (h : i < l.length) : l.getD i default ∈ l := by
  rw [List.getD_eq_getElem?_getD, List.getElem?_eq_getElem h]
  simp only [Option.getD_some]
  exact List.getElem_mem h

theorem interp_between (a b lo hi t : ℝ) (ha1 : lo ≤ a) (ha2 : a ≤ hi)
    (hb1 : lo ≤ b) (hb2 : b ≤ hi) (ht0 : 0 ≤ t) (ht1 : t ≤ 1) :
    lo ≤ a + t * (b - a) ∧ a + t * (b - a) ≤ hi := by
  constructor <;> nlinarith

theorem drawEdgeLoop_ok (ep : Endpoints) (hx : ep.xmin < ep.xmax)
    (hy : ep.ymin < ep.ymax) (sx sy : ℝ) :
    ∀ (n : Nat) (x y : ℝ) (g : Grid),
      (∀ j : Nat, j < n → inBox ep (x + j * sx, y + j * sy)) →
      ∃ g', drawEdgeLoop ep sx sy n x y g = .ok g' := by
  intro n
  induction n with
  | zero => exact fun x y g _ => ⟨g, rfl⟩
  | succ n ih =>
    intro x y g hin
    have h0 := hin 0 (Nat.succ_pos n)
    simp only [Nat.cast_zero, zero_mul, add_zero] at h0
    obtain ⟨hb1, hb2, hb3, hb4⟩ := h0
    have hrow := rowOf_bounds ep y hy hb3 hb4
    have hcol := colOf_bounds ep x hx hb1 hb2
    have hflat := flatIdx_bounds _ _ hrow.1 hrow.2 hcol.1 hcol.2
    have hin' : ∀ j : Nat, j < n → inBox ep ((x + sx) + j * sx, (y + sy) + j * sy) := by
      intro j hj
      have := hin (j + 1) (by omega)
      push_cast at this ⊢
      have e1 : x + sx + j * sx = x + (j + 1) * sx := by ring
      have e2 : y + sy + j * sy = y + (j + 1) * sy := by ring
      rw [e1, e2]
      exact this
    obtain ⟨g', hg'⟩ := ih (x + sx) (y + sy)
      (Function.update g (rowOf ep y * (columns : ℕ) + colOf ep x) "edge") hin'
    refine ⟨g', ?_⟩
    rw [drawEdgeLoop, setCell_ok _ _ _ hflat.1 hflat.2, exceptBind_ok]
    exact hg'


theorem plotEdge_ok (loc : List Point) (ep : Endpoints) (hx : ep.xmin < ep.xmax)
    (hy : ep.ymin < ep.ymax) (hin : ∀ p ∈ loc, inBox ep p) (e : Edge)
    (hv : e.v < loc.length) (hw : e.w < loc.length) (g : Grid) (d : ℝ) :
    ∃ g', plotEdge loc ep (lenEPOf ep) (g, d) (some e) =
      .ok (g', d + cabs (loc.getD e.w default - loc.getD e.v default)) := by
  have hpvin : inBox ep (loc.getD e.v default) :=
    hin _ (getD_mem loc e.v hv)
  have hpwin : inBox ep (loc.getD e.w default) :=
    hin _ (getD_mem loc e.w hw)
  obtain ⟨hpv1, hpv2, hpv3, hpv4⟩ := hpvin
  obtain ⟨hpw1, hpw2, hpw3, hpw4⟩ := hpwin
  have hNb := ncellsOf_bounds ep (cabs (loc.getD e.w default - loc.getD e.v default)) hx
    (cabs_nonneg _)
    (lenEdge_le_lenEP ep _ _ ⟨hpv1, hpv2, hpv3, hpv4⟩ ⟨hpw1, hpw2, hpw3, hpw4⟩)
  have hmem : ∀ j : Nat, j < (ncellsOf (lenEPOf ep)
      (cabs (loc.getD e.w default - loc.getD e.v default))).toNat →
      inBox ep
        ((loc.getD e.v default).1 + j * (((loc.getD e.w default).1 - (loc.getD e.v default).1) /
          ((ncellsOf (lenEPOf ep) (cabs (loc.getD e.w default - loc.getD e.v default)) : ℤ) : ℝ)),
         (loc.getD e.v default).2 + j * (((loc.getD e.w default).2 - (loc.getD e.v default).2) /
          ((ncellsOf (lenEPOf ep) (cabs (loc.getD e.w default - loc.getD e.v default)) : ℤ) : ℝ))) := by
    intro j hj
    have hN1 : (1 : ℤ) ≤ ncellsOf (lenEPOf ep)
        (cabs (loc.getD e.w default - loc.getD e.v default)) := by omega
    have hNpos : (0 : ℝ) < ((ncellsOf (lenEPOf ep)
        (cabs (loc.getD e.w default - loc.getD e.v default)) : ℤ) : ℝ) := by
      exact_mod_cast hN1
    have hjlt : (j : ℤ) < ncellsOf (lenEPOf ep)
        (cabs (loc.getD e.w default - loc.getD e.v default)) := by omega
    have hjN : (j : ℝ) ≤ ((ncellsOf (lenEPOf ep)
        (cabs (loc.getD e.w default - loc.getD e.v default)) : ℤ) : ℝ) := by
      exact_mod_cast le_of_lt hjlt
    have ht0 : (0 : ℝ) ≤ (j : ℝ) / ((ncellsOf (lenEPOf ep)
        (cabs (loc.getD e.w default - loc.getD e.v default)) : ℤ) : ℝ) := by positivity
    have ht1 : (j : ℝ) / ((ncellsOf (lenEPOf ep)
        (cabs (loc.getD e.w default - loc.getD e.v default)) : ℤ) : ℝ) ≤ 1 := by
      rw [div_le_one hNpos]
      exact hjN
    have hxc := interp_between (loc.getD e.v default).1 (loc.getD e.w default).1
      ep.xmin ep.xmax _ hpv1 hpv2 hpw1 hpw2 ht0 ht1
    have hyc := interp_between (loc.getD e.v default).2 (loc.getD e.w default).2
      ep.ymin ep.ymax _ hpv3 hpv4 hpw3 hpw4 ht0 ht1
    have ex : (loc.getD e.v default).1 + (j : ℝ) *
        (((loc.getD e.w default).1 - (loc.getD e.v default).1) /
          ((ncellsOf (lenEPOf ep) (cabs (loc.getD e.w default - loc.getD e.v default)) : ℤ) : ℝ)) =
        (loc.getD e.v default).1 + ((j : ℝ) / ((ncellsOf (lenEPOf ep)
          (cabs (loc.getD e.w default - loc.getD e.v default)) : ℤ) : ℝ)) *
          ((loc.getD e.w default).1 - (loc.getD e.v default).1) := by ring
    have ey : (loc.getD e.v default).2 + (j : ℝ) *
        (((loc.getD e.w default).2 - (loc.getD e.v default).2) /
          ((ncellsOf (lenEPOf ep) (cabs (loc.getD e.w default - loc.getD e.v default)) : ℤ) : ℝ)) =
        (loc.getD e.v default).2 + ((j : ℝ) / ((ncellsOf (lenEPOf ep)
          (cabs (loc.getD e.w default - loc.getD e.v default)) : ℤ) : ℝ)) *
          ((loc.getD e.w default).2 - (loc.getD e.v default).2) := by ring
    refine ⟨?_, ?_, ?_, ?_⟩
    · rw [ex]; exact hxc.1
    · rw [ex]; exact hxc.2
    · rw [ey]; exact hyc.1
    · rw [ey]; exact hyc.2
  obtain ⟨g1, hg1⟩ := drawEdgeLoop_ok ep hx hy _ _ _ _ _ g hmem
  have hrv := rowOf_bounds ep (loc.getD e.v default).2 hy hpv3 hpv4
  have hcv := colOf_bounds ep (loc.getD e.v default).1 hx hpv1 hpv2
  have hfv := flatIdx_bounds _ _ hrv.1 hrv.2 hcv.1 hcv.2
  have hrw2 := rowOf_bounds ep (loc.getD e.w default).2 hy hpw3 hpw4
  have hcw := colOf_bounds ep (loc.getD e.w default).1 hx hpw1 hpw2
  have hfw := flatIdx_bounds _ _ hrw2.1 hrw2.2 hcw.1 hcw.2
  refine ⟨Function.update (Function.update g1
    (rowOf ep (loc.getD e.v default).2 * (columns : ℕ) + colOf ep (loc.getD e.v default).1) "vertex")
    (rowOf ep (loc.getD e.w default).2 * (columns : ℕ) + colOf ep (loc.getD e.w default).1) "vertex", ?_⟩
  unfold plotEdge
  dsimp only
  rw [getE_ok_getD loc e.v hv, getE_ok_getD loc e.w hw]
  simp only [Bind.bind, Except.bind]
  rw [hg1]
  dsimp only
  rw [setCell_ok _ _ _ hfv.1 hfv.2]
  dsimp only
  rw [setCell_ok _ _ _ hfw.1 hfw.2]


theorem getE_ok_val {β : Type} [Inhabited β] {l : List β} {i : Nat} {b : β}
    (h : getE l i = .ok b) : l.getD i default = b ∧ i < l.length := by
  rw [getE_eq_ok_iff] at h
  have hi : i < l.length := by
    by_contra hn
    rw [List.getElem?_eq_none (by omega)] at h
    cases h
  refine ⟨?_, hi⟩
  rw [List.getD_eq_getElem?_getD, h]
  rfl

/-- Splitting a successful `Except` bind into its two successful stages. -/
theorem exceptBind_eq_ok {ε γ δ : Type} {x : Except ε γ} {f : γ → Except ε δ}
    {b : δ} (h : (x >>= f) = .ok b) : ∃ a, x = .ok a ∧ f a = .ok b := by
  cases x with
  | error s => exact absurd h (by simp [Bind.bind, Except.bind])
  | ok a => exact ⟨a, rfl, h⟩

theorem setCell_err (g : Grid) (idx : ℤ) (s : String)
    (h : ¬(0 ≤ idx ∧ idx < (rows * columns : ℕ))) :
    setCell g idx s = .error "grid index out of range" := by
  rw [setCell, if_neg h]

/-- The per-edge fold over a list of well-formed `some` entries succeeds and
adds exactly the sum of the edges' lengths to the accumulated distance. -/
theorem plotEdges_ok (loc : List Point) (ep : Endpoints) (hx : ep.xmin < ep.xmax)
    (hy : ep.ymin < ep.ymax) (hin : ∀ p ∈ loc, inBox ep p) :
    ∀ (es : List (Option Edge)),
      (∀ e ∈ es, ∃ e', e = some e' ∧ e'.v < loc.length ∧ e'.w < loc.length) →
      ∀ (g : Grid) (d : ℝ), ∃ g',
        es.foldlM (plotEdge loc ep (lenEPOf ep)) (g, d) =
          .ok (g', d + (es.map (edgeLenOf loc)).sum) := by
  intro es
  induction es with
  | nil =>
    intro _ g d
    refine ⟨g, ?_⟩
    simp [List.foldlM_nil, pure, Except.pure]
  | cons a es ih =>
    intro hall g d
    obtain ⟨e', rfl, hv, hw⟩ := hall a (List.mem_cons_self a es)
    obtain ⟨g1, hg1⟩ := plotEdge_ok loc ep hx hy hin e' hv hw g d
    obtain ⟨g2, hg2⟩ := ih (fun e he => hall e (List.mem_cons_of_mem _ he)) g1
      (d + cabs (loc.getD e'.w default - loc.getD e'.v default))
    refine ⟨g2, ?_⟩
    rw [List.foldlM_cons, hg1, exceptBind_ok, hg2]
    simp only [List.map_cons, List.sum_cons, edgeLenOf]
    rw [add_assoc]

/-- Inversion of one successful `plotEdge` step: the entry was a `some`
edge, the distance grew by exactly that edge's recomputed length, and both
endpoint cells of the edge read `"vertex"` in the resulting grid. -/
theorem plotEdge_ok_inv {loc : List Point} {ep : Endpoints} {L : ℝ}
    {g : Grid} {d : ℝ} {e : Option Edge} {g' : Grid} {d' : ℝ}
    (h : plotEdge loc ep L (g, d) e = .ok (g', d')) :
    ∃ e', e = some e' ∧ d' = d + edgeLenOf loc e ∧
      g' (projIdx ep (loc.getD e'.v default)) = "vertex" ∧
      g' (projIdx ep (loc.getD e'.w default)) = "vertex" := by
  cases e with
  | none => exact absurd h (by simp [plotEdge])
  | some e =>
    refine ⟨e, rfl, ?_⟩
    unfold plotEdge at h
    obtain ⟨pv, hv, hA⟩ := exceptBind_eq_ok h
    clear h
    obtain ⟨pw, hw, hB⟩ := exceptBind_eq_ok hA
    clear hA
    obtain ⟨g1, hg1, hC⟩ := exceptBind_eq_ok hB
    clear hB
    obtain ⟨g2, hg2, hD⟩ := exceptBind_eq_ok hC
    clear hC
    obtain ⟨g3, hg3, hE⟩ := exceptBind_eq_ok hD
    clear hD
    obtain ⟨hvd, hvl⟩ := getE_ok_val hv
    obtain ⟨hwd, hwl⟩ := getE_ok_val hw
    have hpair : g3 = g' ∧ d + cabs (pw - pv) = d' := by
      simpa [Prod.ext_iff] using hE
    obtain ⟨rfl, hd⟩ := hpair
    have h2 := setCell_ok_inv hg2
    have h3 := setCell_ok_inv hg3
    subst h2 h3
    refine ⟨?_, ?_, ?_⟩
    · rw [← hd, edgeLenOf, hvd, hwd]
    · rw [projIdx, hvd]
      by_cases hc : rowOf ep pv.2 * (columns : ℕ) + colOf ep pv.1 =
          rowOf ep pw.2 * (columns : ℕ) + colOf ep pw.1
      · rw [hc]
        simp [Function.update_apply]
      · simp [Function.update_apply, hc]
    · rw [projIdx, hwd]
      simp [Function.update_apply]

/-- Inversion for the distance component of the per-edge fold: a successful
fold adds exactly the sum of the entries' recomputed lengths. -/
theorem plotEdges_distance_inv (loc : List Point) (ep : Endpoints) (L : ℝ) :
    ∀ (es : List (Option Edge)) (g : Grid) (d : ℝ) (g' : Grid) (d' : ℝ),
      es.foldlM (plotEdge loc ep L) (g, d) = .ok (g', d') →
      d' = d + (es.map (edgeLenOf loc)).sum := by
  intro es
  induction es with
  | nil =>
    intro g d g' d' h
    have h' : (Except.ok (g, d) : Except String (Grid × ℝ)) = .ok (g', d') := h
    simp only [Except.ok.injEq, Prod.mk.injEq] at h'
    simp [← h'.2]
  | cons a es ih =>
    intro g d g' d' h
    rw [List.foldlM_cons] at h
    obtain ⟨acc, ha, hrest⟩ := exceptBind_eq_ok h
    clear h
    obtain ⟨g1, d1⟩ := acc
    obtain ⟨e', rfl, hd1, -, -⟩ := plotEdge_ok_inv ha
    have hs := ih g1 d1 g' d' hrest
    rw [hs, hd1]
    simp only [List.map_cons, List.sum_cons]
    ring

/-- `plotMST` with the initial all-empty grid inlined (definitional). -/
theorem plotMST_eq (loc : List Point) (ep : Endpoints) (mst : List (Option Edge)) :
    plotMST loc ep mst =
      (if mst.length < 1 then .error "slice bounds out of range" else do
        let r ← (mst.drop 1).foldlM (plotEdge loc ep (lenEPOf ep))
          (((fun _ => "") : Grid), (0 : ℝ))
        let start ← getE loc 0
        let row := rowOf ep start.2
        let col := colOf ep start.1
        let grid ← setCell r.1 (row * (columns : ℕ) + col) "startvertex"
        let grid ← setCell grid ((row + 1) * (columns : ℕ) + col) "startvertex"
        let grid ← setCell grid ((row - 1) * (columns : ℕ) + col) "startvertex"
        let grid ← setCell grid (row * (columns : ℕ) + col + 1) "startvertex"
        let grid ← setCell grid (row * (columns : ℕ) + col - 1) "startvertex"
        Except.ok ⟨grid, r.2⟩) := rfl

/-- Inversion of a successful `plotMST` run: the per-edge fold and the
start lookup succeeded, the reported distance is the fold's accumulated
distance, and the final grid is the fold's grid overwritten with
`"startvertex"` on the start cell and its four direct neighbours. -/
theorem plotMST_ok_inv {loc : List Point} {ep : Endpoints}
    {mst : List (Option Edge)} {r : PlotResult}
    (h : plotMST loc ep mst = .ok r) :
    ∃ ge dA p0,
      (mst.drop 1).foldlM (plotEdge loc ep (lenEPOf ep)) ((fun _ => ""), (0 : ℝ)) =
        .ok (ge, dA) ∧
      getE loc 0 = .ok p0 ∧ r.distance = dA ∧
      ∀ c : ℤ,
        r.grid c =
          if c = rowOf ep p0.2 * (columns : ℕ) + colOf ep p0.1 ∨
             c = (rowOf ep p0.2 + 1) * (columns : ℕ) + colOf ep p0.1 ∨
             c = (rowOf ep p0.2 - 1) * (columns : ℕ) + colOf ep p0.1 ∨
             c = rowOf ep p0.2 * (columns : ℕ) + colOf ep p0.1 + 1 ∨
             c = rowOf ep p0.2 * (columns : ℕ) + colOf ep p0.1 - 1
          then "startvertex" else ge c := by
  rw [plotMST_eq] at h
  split at h
  · exact absurd h (by simp)
  · obtain ⟨acc, hf, hA⟩ := exceptBind_eq_ok h
    clear h
    obtain ⟨p0, hp0, hB⟩ := exceptBind_eq_ok hA
    clear hA
    obtain ⟨g1, hg1, hC⟩ := exceptBind_eq_ok hB
    clear hB
    obtain ⟨g2, hg2, hD⟩ := exceptBind_eq_ok hC
    clear hC
    obtain ⟨g3, hg3, hE⟩ := exceptBind_eq_ok hD
    clear hD
    obtain ⟨g4, hg4, hF⟩ := exceptBind_eq_ok hE
    clear hE
    obtain ⟨g5, hg5, hG⟩ := exceptBind_eq_ok hF
    clear hF
    obtain ⟨gA, dA⟩ := acc
    have hr : ({ grid := g5, distance := dA } : PlotResult) = r := by
      simpa using hG
    refine ⟨gA, dA, p0, hf, hp0, ?_, ?_⟩
    · rw [← hr]
    · subst hr
      have e1 := setCell_ok_inv hg1
      have e2 := setCell_ok_inv hg2
      have e3 := setCell_ok_inv hg3
      have e4 := setCell_ok_inv hg4
      have e5 := setCell_ok_inv hg5
      subst e1 e2 e3 e4 e5
      intro c
      dsimp only
      simp only [Function.update_apply]
      split_ifs <;> tauto

/-- Whenever `plotMST` returns, its reported distance is exactly the sum
of the recomputed lengths of the tree's recorded edges. -/
theorem plotMST_distance {loc : List Point} {ep : Endpoints}
    {mst : List (Option Edge)} {r : PlotResult}
    (h : plotMST loc ep mst = .ok r) :
    r.distance = mstTotalDistance loc mst := by
  obtain ⟨ge, dA, p0, hf, -, hd, -⟩ := plotMST_ok_inv h
  have hsum := plotEdges_distance_inv loc ep (lenEPOf ep) (mst.drop 1) _ _ _ _ hf
  rw [hd, hsum, mstTotalDistance, zero_add]

/-- Full success of `plotMST` when the bounding box is valid, all points
lie inside it, the tree entries at `1..` are well-formed edges, and the
start vertex projects to an interior grid cell. The reported distance is
the recomputed total tree weight. -/
theorem plotMST_ok (loc : List Point) (ep : Endpoints) (mst : List (Option Edge))
    (hx : ep.xmin < ep.xmax) (hy : ep.ymin < ep.ymax)
    (hin : ∀ p ∈ loc, inBox ep p) (hV : 0 < loc.length)
    (hmst : 1 ≤ mst.length)
    (hes : ∀ e ∈ mst.drop 1, ∃ e', e = some e' ∧ e'.v < loc.length ∧ e'.w < loc.length)
    (hr0 : 1 ≤ rowOf ep (loc.getD 0 default).2)
    (hr1 : rowOf ep (loc.getD 0 default).2 ≤ 298)
    (hc0 : 1 ≤ colOf ep (loc.getD 0 default).1)
    (hc1 : colOf ep (loc.getD 0 default).1 ≤ 298) :
    ∃ r, plotMST loc ep mst = .ok r ∧ r.distance = mstTotalDistance loc mst := by
  obtain ⟨ge, hge⟩ := plotEdges_ok loc ep hx hy hin (mst.drop 1) hes (fun _ => "") 0
  have ecol : ((columns : ℕ) : ℤ) = 300 := by norm_num [columns, rows]
  have erow : ((rows : ℕ) : ℤ) = 300 := by norm_num [rows]
  have hf0 := flatIdx_bounds (rowOf ep (loc.getD 0 default).2)
    (colOf ep (loc.getD 0 default).1) (by omega) (by omega) (by omega) (by omega)
  have hf1 := flatIdx_bounds (rowOf ep (loc.getD 0 default).2 + 1)
    (colOf ep (loc.getD 0 default).1) (by omega) (by omega) (by omega) (by omega)
  have hf2 := flatIdx_bounds (rowOf ep (loc.getD 0 default).2 - 1)
    (colOf ep (loc.getD 0 default).1) (by omega) (by omega) (by omega) (by omega)
  have hf3 := flatIdx_bounds (rowOf ep (loc.getD 0 default).2)
    (colOf ep (loc.getD 0 default).1 + 1) (by omega) (by omega) (by omega) (by omega)
  have hf4 := flatIdx_bounds (rowOf ep (loc.getD 0 default).2)
    (colOf ep (loc.getD 0 default).1 - 1) (by omega) (by omega) (by omega) (by omega)
  have hf3' : rowOf ep (loc.getD 0 default).2 * ((columns : ℕ) : ℤ) +
      colOf ep (loc.getD 0 default).1 + 1 < ((rows * columns : ℕ) : ℤ) := by
    have h1 := hf3.2
    push_cast at h1 ⊢
    linarith
  have hf3'' : (0 : ℤ) ≤ rowOf ep (loc.getD 0 default).2 * ((columns : ℕ) : ℤ) +
      colOf ep (loc.getD 0 default).1 + 1 := by
    have h1 := hf0.1
    omega
  have hf4' : (0 : ℤ) ≤ rowOf ep (loc.getD 0 default).2 * ((columns : ℕ) : ℤ) +
      colOf ep (loc.getD 0 default).1 - 1 := by
    have h1 := hf4.1
    push_cast at h1 ⊢
    linarith
  have hf4'' : rowOf ep (loc.getD 0 default).2 * ((columns : ℕ) : ℤ) +
      colOf ep (loc.getD 0 default).1 - 1 < ((rows * columns : ℕ) : ℤ) := by
    have h1 := hf0.2
    omega
  have hsucc : ∃ r, plotMST loc ep mst = .ok r := by
    apply Exists.intro
    rw [plotMST_eq, if_neg (by omega)]
    simp only [Bind.bind, Except.bind]
    rw [hge]
    dsimp only
    rw [getE_ok_getD loc 0 hV]
    dsimp only
    rw [setCell_ok _ _ _ hf0.1 hf0.2]
    dsimp only
    rw [setCell_ok _ _ _ hf1.1 hf1.2]
    dsimp only
    rw [setCell_ok _ _ _ hf2.1 hf2.2]
    dsimp only
    rw [setCell_ok _ _ _ hf3'' hf3']
    dsimp only
    rw [setCell_ok _ _ _ hf4' hf4'']
  obtain ⟨r, hr⟩ := hsucc
  exact ⟨r, hr, plotMST_distance hr⟩


/-! ### Concrete rasterizer runs

The bounding box `epB = [0,3] × [0,4]` (diagonal length 5) hosts the
concrete plots; cell coordinates are evaluated with `goInt_eq`. -/

/-- A valid bounding box with diagonal length `5`. -/
def epB : Endpoints := ⟨0, 3, 0, 4⟩

/-- Two points close to each other whose shared `y` lies on the box's
`ymax` border, so the start vertex projects to grid row `0`. -/
noncomputable def locB : List Point := [(1, 4), (101 / 100, 4)]

theorem lenEPOf_epB : lenEPOf epB = 5 := by
  apply cabs_eq_of_sq _ _ (by norm_num)
  simp only [Prod.fst_sub, Prod.snd_sub, epB]
  norm_num

theorem rowOf_epB_2 : rowOf epB 2 = 150 := by
  rw [rowOf, yscaleOf]
  apply goInt_eq <;> norm_num [epB, rows]

theorem rowOf_epB_4 : rowOf epB 4 = 0 := by
  rw [rowOf, yscaleOf]
  apply goInt_eq <;> norm_num [epB, rows]

theorem colOf_epB_1 : colOf epB 1 = 100 := by
  rw [colOf, xscaleOf]
  apply goInt_eq <;> norm_num [epB, rows, columns]

theorem colOf_epB_101 : colOf epB (101 / 100) = 101 := by
  rw [colOf, xscaleOf]
  apply goInt_eq <;> norm_num [epB, rows, columns]

theorem colOf_epB_5150 : colOf epB (51 / 50) = 102 := by
  rw [colOf, xscaleOf]
  apply goInt_eq <;> norm_num [epB, rows, columns]

theorem colOf_epB_2625 : colOf epB (26 / 25) = 104 := by
  rw [colOf, xscaleOf]
  apply goInt_eq <;> norm_num [epB, rows, columns]

theorem colOf_epB_5350 : colOf epB (53 / 50) = 106 := by
  rw [colOf, xscaleOf]
  apply goInt_eq <;> norm_num [epB, rows, columns]

theorem ncellsOf_epB_0 : ncellsOf (lenEPOf epB) 0 = 0 := by
  rw [ncellsOf, lenEPOf_epB]
  apply goInt_eq <;> norm_num [rows, columns]

theorem ncellsOf_epB_1100 : ncellsOf (lenEPOf epB) (1 / 100) = 0 := by
  rw [ncellsOf, lenEPOf_epB]
  apply goInt_eq <;> norm_num [rows, columns]

theorem ncellsOf_epB_150 : ncellsOf (lenEPOf epB) (1 / 50) = 1 := by
  rw [ncellsOf, lenEPOf_epB]
  apply goInt_eq <;> norm_num [rows, columns]

theorem ncellsOf_epB_125 : ncellsOf (lenEPOf epB) (1 / 25) = 2 := by
  rw [ncellsOf, lenEPOf_epB]
  apply goInt_eq <;> norm_num [rows, columns]

theorem drawEdgeLoop_zero (ep : Endpoints) (sx sy x y : ℝ) (g : Grid) :
    drawEdgeLoop ep sx sy 0 x y g = .ok g := rfl

/-- One interpolation step of the edge-drawing loop, with the written
flat index given explicitly. -/
theorem drawEdgeLoop_succ (ep : Endpoints) (sx sy : ℝ) (n : Nat) (x y : ℝ)
    (g : Grid) (idx : ℤ)
    (hidx : rowOf ep y * (columns : ℕ) + colOf ep x = idx)
    (h0 : 0 ≤ idx) (h1 : idx < ((rows * columns : ℕ) : ℤ)) :
    drawEdgeLoop ep sx sy (n + 1) x y g =
      drawEdgeLoop ep sx sy n (x + sx) (y + sy) (Function.update g idx "edge") := by
  rw [drawEdgeLoop, hidx, setCell_ok _ _ _ h0 h1, exceptBind_ok]

/-- Concrete evaluation of one `plotEdge` step from explicit values of
its ingredients (endpoint reads, edge length, cell count, loop result,
endpoint flat indices). -/
theorem plotEdge_eval {loc : List Point} {ep : Endpoints} {L : ℝ} {g : Grid}
    {d : ℝ} {e : Edge} {pv pw : Point} {len : ℝ} {N : ℤ} {g1 : Grid}
    (hv : getE loc e.v = .ok pv) (hw : getE loc e.w = .ok pw)
    (hlen : cabs (pw - pv) = len) (hN : ncellsOf L len = N)
    (hloop : drawEdgeLoop ep ((pw.1 - pv.1) / ((N : ℤ) : ℝ))
      ((pw.2 - pv.2) / ((N : ℤ) : ℝ)) N.toNat pv.1 pv.2 g = .ok g1)
    (idxv idxw : ℤ)
    (hiv : rowOf ep pv.2 * (columns : ℕ) + colOf ep pv.1 = idxv)
    (hiw : rowOf ep pw.2 * (columns : ℕ) + colOf ep pw.1 = idxw)
    (h0v : 0 ≤ idxv) (h1v : idxv < ((rows * columns : ℕ) : ℤ))
    (h0w : 0 ≤ idxw) (h1w : idxw < ((rows * columns : ℕ) : ℤ)) :
    plotEdge loc ep L (g, d) (some e) =
      .ok (Function.update (Function.update g1 idxv "vertex") idxw "vertex",
        d + len) := by
  unfold plotEdge
  dsimp only
  rw [hv, hw]
  simp only [Bind.bind, Except.bind]
  rw [hlen, hN, hloop]
  dsimp only
  rw [hiv, setCell_ok _ _ _ h0v h1v]
  dsimp only
  rw [hiw, setCell_ok _ _ _ h0w h1w]

theorem getE_locB_0 : getE locB 0 = .ok ((1 : ℝ), (4 : ℝ)) := rfl

theorem getE_locB_1 : getE locB 1 = .ok ((101 / 100 : ℝ), (4 : ℝ)) := rfl

theorem getE_locE_0 : getE locE 0 = .ok ((1 : ℝ), (2 : ℝ)) := rfl

theorem getE_locE_1 : getE locE 1 = .ok ((26 / 25 : ℝ), (2 : ℝ)) := rfl

theorem getE_locE_2 : getE locE 2 = .ok ((51 / 50 : ℝ), (2 : ℝ)) := rfl

theorem getE_locE_3 : getE locE 3 = .ok ((53 / 50 : ℝ), (2 : ℝ)) := rfl

theorem cabs_locB_edge : cabs (((101 / 100 : ℝ), (4 : ℝ)) - ((1 : ℝ), (4 : ℝ))) = 1 / 100 := by
  apply cabs_eq_of_sq _ _ (by norm_num)
  simp only [Prod.fst_sub, Prod.snd_sub]
  norm_num

theorem cabs_locE_21 : cabs (((26 / 25 : ℝ), (2 : ℝ)) - ((51 / 50 : ℝ), (2 : ℝ))) = 1 / 50 := by
  apply cabs_eq_of_sq _ _ (by norm_num)
  simp only [Prod.fst_sub, Prod.snd_sub]
  norm_num

theorem cabs_locE_02 : cabs (((51 / 50 : ℝ), (2 : ℝ)) - ((1 : ℝ), (2 : ℝ))) = 1 / 50 := by
  apply cabs_eq_of_sq _ _ (by norm_num)
  simp only [Prod.fst_sub, Prod.snd_sub]
  norm_num

theorem cabs_locE_23 : cabs (((53 / 50 : ℝ), (2 : ℝ)) - ((51 / 50 : ℝ), (2 : ℝ))) = 1 / 25 := by
  apply cabs_eq_of_sq _ _ (by norm_num)
  simp only [Prod.fst_sub, Prod.snd_sub]
  norm_num

/-- The loop of edge `(2,1)` of `treeA` on `locE`: one cell, at flat
index `45102`. -/
theorem drawLoop21 (g : Grid) :
    drawEdgeLoop epB (((26 / 25 : ℝ) - 51 / 50) / (((1 : ℤ) : ℤ) : ℝ))
      (((2 : ℝ) - 2) / (((1 : ℤ) : ℤ) : ℝ)) 1 (51 / 50) 2 g =
      .ok (Function.update g 45102 "edge") := by
  rw [show (1 : ℕ) = 0 + 1 from rfl]
  rw [drawEdgeLoop_succ epB _ _ _ _ _ _ 45102
    (by rw [rowOf_epB_2, colOf_epB_5150]; norm_num [columns, rows])
    (by norm_num) (by norm_num [rows, columns])]
  rw [drawEdgeLoop_zero]

/-- The loop of edge `(0,2)` of `treeA` on `locE`: one cell, at flat
index `45100`. -/
theorem drawLoop02 (g : Grid) :
    drawEdgeLoop epB (((51 / 50 : ℝ) - 1) / (((1 : ℤ) : ℤ) : ℝ))
      (((2 : ℝ) - 2) / (((1 : ℤ) : ℤ) : ℝ)) 1 1 2 g =
      .ok (Function.update g 45100 "edge") := by
  rw [show (1 : ℕ) = 0 + 1 from rfl]
  rw [drawEdgeLoop_succ epB _ _ _ _ _ _ 45100
    (by rw [rowOf_epB_2, colOf_epB_1]; norm_num [columns, rows])
    (by norm_num) (by norm_num [rows, columns])]
  rw [drawEdgeLoop_zero]

/-- The loop of edge `(2,3)` of `treeA` on `locE`: two cells, at flat
indices `45102` and `45104`; the second interpolated point lands exactly
on vertex `1`'s cell. -/
theorem drawLoop23 (g : Grid) :
    drawEdgeLoop epB (((53 / 50 : ℝ) - 51 / 50) / (((2 : ℤ) : ℤ) : ℝ))
      (((2 : ℝ) - 2) / (((2 : ℤ) : ℤ) : ℝ)) 2 (51 / 50) 2 g =
      .ok (Function.update (Function.update g 45102 "edge") 45104 "edge") := by
  rw [show (2 : ℕ) = 0 + 1 + 1 from rfl]
  rw [drawEdgeLoop_succ epB _ _ _ _ _ _ 45102
    (by rw [rowOf_epB_2, colOf_epB_5150]; norm_num [columns, rows])
    (by norm_num) (by norm_num [rows, columns])]
  have hx1 : (51 / 50 : ℝ) + ((53 / 50 : ℝ) - 51 / 50) / (((2 : ℤ) : ℤ) : ℝ) = 26 / 25 := by
    push_cast
    norm_num
  have hy1 : (2 : ℝ) + ((2 : ℝ) - 2) / (((2 : ℤ) : ℤ) : ℝ) = 2 := by
    push_cast
    norm_num
  rw [hx1, hy1]
  rw [drawEdgeLoop_succ epB _ _ _ _ _ _ 45104
    (by rw [rowOf_epB_2, colOf_epB_2625]; norm_num [columns, rows])
    (by norm_num) (by norm_num [rows, columns])]
  rw [drawEdgeLoop_zero]

/-- On `locB` the start vertex projects to row `0`, so the start block's
"row above" write indexes the grid at `-200` and panics. -/
theorem plotMST_locB_err :
    plotMST locB epB [none, some ⟨0, 1⟩] = .error "grid index out of range" := by
  have hfold : ∃ G, (([none, some (⟨0, 1⟩ : Edge)] : List (Option Edge)).drop 1).foldlM
      (plotEdge locB epB (lenEPOf epB)) (((fun _ => "") : Grid), (0 : ℝ)) =
      .ok (G, 0 + 1 / 100) := by
    apply Exists.intro
    rw [show (([none, some (⟨0, 1⟩ : Edge)] : List (Option Edge)).drop 1) =
      [some ⟨0, 1⟩] from rfl]
    rw [List.foldlM_cons,
      plotEdge_eval getE_locB_0 getE_locB_1 cabs_locB_edge ncellsOf_epB_1100
        (drawEdgeLoop_zero _ _ _ _ _ _) 100 101
        (by rw [rowOf_epB_4, colOf_epB_1]; norm_num [columns, rows])
        (by rw [rowOf_epB_4, colOf_epB_101]; norm_num [columns, rows])
        (by norm_num) (by norm_num [rows, columns])
        (by norm_num) (by norm_num [rows, columns]),
      exceptBind_ok, List.foldlM_nil]
    rfl
  obtain ⟨G, hfold⟩ := hfold
  rw [plotMST_eq, if_neg (by norm_num)]
  simp only [Bind.bind, Except.bind]
  rw [hfold]
  dsimp only
  rw [getE_locB_0]
  dsimp only
  rw [show rowOf epB ((1 : ℝ), (4 : ℝ)).2 * ((columns : ℕ) : ℤ) +
    colOf epB ((1 : ℝ), (4 : ℝ)).1 = 100 by
      rw [show ((1 : ℝ), (4 : ℝ)).2 = 4 from rfl, show ((1 : ℝ), (4 : ℝ)).1 = 1 from rfl,
        rowOf_epB_4, colOf_epB_1]
      norm_num [columns, rows]]
  rw [setCell_ok _ _ _ (by norm_num) (by norm_num [rows, columns])]
  dsimp only
  rw [show (rowOf epB ((1 : ℝ), (4 : ℝ)).2 + 1) * ((columns : ℕ) : ℤ) +
    colOf epB ((1 : ℝ), (4 : ℝ)).1 = 400 by
      rw [show ((1 : ℝ), (4 : ℝ)).2 = 4 from rfl, show ((1 : ℝ), (4 : ℝ)).1 = 1 from rfl,
        rowOf_epB_4, colOf_epB_1]
      norm_num [columns, rows]]
  rw [setCell_ok _ _ _ (by norm_num) (by norm_num [rows, columns])]
  dsimp only
  rw [show (rowOf epB ((1 : ℝ), (4 : ℝ)).2 - 1) * ((columns : ℕ) : ℤ) +
    colOf epB ((1 : ℝ), (4 : ℝ)).1 = -200 by
      rw [show ((1 : ℝ), (4 : ℝ)).2 = 4 from rfl, show ((1 : ℝ), (4 : ℝ)).1 = 1 from rfl,
        rowOf_epB_4, colOf_epB_1]
      norm_num [columns, rows]]
  rw [setCell_err _ _ _ (by norm_num)]

/-- Two coincident points: the solver's tree plotted on `epB` succeeds
(the zero-length edge contributes zero interpolation cells) and reports
total distance `0`. -/
theorem plotMST_locC7_ok :
    ∃ r, plotMST locC7 epB [none, some ⟨0, 1⟩] = .ok r ∧ r.distance = 0 := by
  obtain ⟨r, hr, hd⟩ := plotMST_ok locC7 epB [none, some ⟨0, 1⟩]
    (by norm_num [epB]) (by norm_num [epB])
    (by
      intro p hp
      simp only [locC7, List.mem_cons, List.not_mem_nil, or_false] at hp
      rcases hp with rfl | rfl <;> norm_num [inBox, epB])
    (by norm_num [locC7]) (by norm_num)
    (by
      intro e he
      simp only [List.drop, List.mem_singleton] at he
      exact ⟨⟨0, 1⟩, he, by norm_num [locC7], by norm_num [locC7]⟩)
    (by norm_num [locC7, rowOf_epB_2]) (by norm_num [locC7, rowOf_epB_2])
    (by norm_num [locC7, colOf_epB_1]) (by norm_num [locC7, colOf_epB_1])
  refine ⟨r, hr, ?_⟩
  rw [hd]
  simp only [mstTotalDistance, edgeLenOf, List.drop, List.map_cons, List.map_nil,
    List.sum_cons, List.sum_nil, locC7]
  simp [cabs_zero]

/-- Plotting `treeA` on `locE`: the run succeeds, but the final grid
labels vertex `1`'s cell (flat index `45104`) `"edge"`, because the last
edge's second interpolated point lands on it after the `"vertex"` mark
made by the first edge. -/
theorem plotMST_locE_grid :
    ∃ r, plotMST locE epB treeA = .ok r ∧
      projIdx epB (locE.getD 1 default) = 45104 ∧ r.grid 45104 = "edge" := by
  have hfold : ∃ G, (treeA.drop 1).foldlM
      (plotEdge locE epB (lenEPOf epB)) (((fun _ => "") : Grid), (0 : ℝ)) =
      .ok (G, 0 + 1 / 50 + 1 / 50 + 1 / 25) ∧ G 45104 = "edge" := by
    apply Exists.intro
    constructor
    · rw [show treeA.drop 1 = [some ⟨2, 1⟩, some ⟨0, 2⟩, some ⟨2, 3⟩] from rfl]
      rw [List.foldlM_cons,
        plotEdge_eval getE_locE_2 getE_locE_1 cabs_locE_21 ncellsOf_epB_150
          (drawLoop21 _) 45102 45104
          (by rw [rowOf_epB_2, colOf_epB_5150]; norm_num [columns, rows])
          (by rw [rowOf_epB_2, colOf_epB_2625]; norm_num [columns, rows])
          (by norm_num) (by norm_num [rows, columns])
          (by norm_num) (by norm_num [rows, columns]),
        exceptBind_ok, List.foldlM_cons,
        plotEdge_eval getE_locE_0 getE_locE_2 cabs_locE_02 ncellsOf_epB_150
          (drawLoop02 _) 45100 45102
          (by rw [rowOf_epB_2, colOf_epB_1]; norm_num [columns, rows])
          (by rw [rowOf_epB_2, colOf_epB_5150]; norm_num [columns, rows])
          (by norm_num) (by norm_num [rows, columns])
          (by norm_num) (by norm_num [rows, columns]),
        exceptBind_ok, List.foldlM_cons,
        plotEdge_eval getE_locE_2 getE_locE_3 cabs_locE_23 ncellsOf_epB_125
          (drawLoop23 _) 45102 45106
          (by rw [rowOf_epB_2, colOf_epB_5150]; norm_num [columns, rows])
          (by rw [rowOf_epB_2, colOf_epB_5350]; norm_num [columns, rows])
          (by norm_num) (by norm_num [rows, columns])
          (by norm_num) (by norm_num [rows, columns]),
        exceptBind_ok, List.foldlM_nil]
      rfl
    · norm_num [Function.update_apply]
  obtain ⟨G, hfold, hG⟩ := hfold
  have hinE : ∀ p ∈ locE, inBox epB p := by
    intro p hp
    simp only [locE, List.mem_cons, List.not_mem_nil, or_false] at hp
    rcases hp with rfl | rfl | rfl | rfl <;> norm_num [inBox, epB]
  obtain ⟨r, hr, -⟩ := plotMST_ok locE epB treeA
    (by norm_num [epB]) (by norm_num [epB]) hinE
    (by norm_num [locE]) (by norm_num [treeA])
    (by
      intro e he
      rw [show treeA.drop 1 = [some ⟨2, 1⟩, some ⟨0, 2⟩, some ⟨2, 3⟩] from rfl] at he
      simp only [List.mem_cons, List.not_mem_nil, or_false] at he
      rcases he with rfl | rfl | rfl
      · exact ⟨⟨2, 1⟩, rfl, by norm_num [locE], by norm_num [locE]⟩
      · exact ⟨⟨0, 2⟩, rfl, by norm_num [locE], by norm_num [locE]⟩
      · exact ⟨⟨2, 3⟩, rfl, by norm_num [locE], by norm_num [locE]⟩)
    (by norm_num [locE, rowOf_epB_2]) (by norm_num [locE, rowOf_epB_2])
    (by norm_num [locE, colOf_epB_1]) (by norm_num [locE, colOf_epB_1])
  obtain ⟨ge, dA, p0, hf, hp0, -, hgrid⟩ := plotMST_ok_inv hr
  have hp0' : p0 = ((1 : ℝ), (2 : ℝ)) := by
    rw [getE_locE_0] at hp0
    exact (Except.ok.inj hp0).symm
  subst hp0'
  have hge : ge = G := by
    rw [hfold] at hf
    exact (congrArg Prod.fst (Except.ok.inj hf)).symm
  refine ⟨r, hr, ?_, ?_⟩
  · rw [projIdx, show (locE.getD 1 default) = ((26 / 25 : ℝ), (2 : ℝ)) from rfl]
    rw [show ((26 / 25 : ℝ), (2 : ℝ)).2 = (2 : ℝ) from rfl,
      show ((26 / 25 : ℝ), (2 : ℝ)).1 = (26 / 25 : ℝ) from rfl,
      rowOf_epB_2, colOf_epB_2625]
    norm_num [columns, rows]
  · rw [hgrid 45104]
    rw [show ((1 : ℝ), (2 : ℝ)).2 = (2 : ℝ) from rfl,
      show ((1 : ℝ), (2 : ℝ)).1 = (1 : ℝ) from rfl,
      rowOf_epB_2, colOf_epB_1]
    rw [if_neg (by norm_num [columns, rows])]
    rw [hge, hG]


/-! ### Characterization of the distance matrix -/

theorem cabs_sub_comm (p q : ℝ × ℝ) : cabs (p - q) = cabs (q - p) := by
  rw [cabs, cabs]
  congr 1
  simp only [Prod.fst_sub, Prod.snd_sub]
  ring

/-- The shape maintained by `findDistances`: `V` rows of length `V`. -/
def matShape (g : List (List ℝ)) (V : Nat) : Prop :=
  g.length = V ∧ ∀ r ∈ g, r.length = V

theorem getD_row_mem {g : List (List ℝ)} {i : Nat} (h : i < g.length) :
    g.getD i [] ∈ g := by
  rw [List.getD_eq_getElem?_getD, List.getElem?_eq_getElem h]
  simp only [Option.getD_some]
  exact List.getElem_mem h

theorem matShape_set2 {g : List (List ℝ)} {V : Nat} (h : matShape g V)
    {i : Nat} (hi : i < V) (j : Nat) (d : ℝ) : matShape (set2 g i j d) V := by
  obtain ⟨h1, h2⟩ := h
  refine ⟨by simp [set2, h1], ?_⟩
  intro r hr
  rcases List.mem_or_eq_of_mem_set hr with hr' | rfl
  · exact h2 _ hr'
  · rw [List.length_set]
    exact h2 _ (getD_row_mem (by omega))

theorem get2_set2 {g : List (List ℝ)} {V : Nat} (h : matShape g V)
    {i j : Nat} (hi : i < V) (hj : j < V) (d : ℝ) (a b : Nat) :
    get2 (set2 g i j d) a b = if a = i ∧ b = j then d else get2 g a b := by
  obtain ⟨h1, h2⟩ := h
  have hig : i < g.length := by omega
  have hrowlen : (g.getD i []).length = V := h2 _ (getD_row_mem hig)
  by_cases hai : a = i
  · subst hai
    have hrow : (g.set a ((g.getD a []).set j d)).getD a [] = (g.getD a []).set j d := by
      rw [List.getD_eq_getElem?_getD, List.getElem?_set_self (by omega)]
      rfl
    rw [get2, set2, hrow]
    by_cases hbj : b = j
    · subst hbj
      rw [if_pos ⟨rfl, rfl⟩]
      rw [List.getD_eq_getElem?_getD, List.getElem?_set_self (by omega)]
      rfl
    · rw [if_neg (by tauto)]
      have hcell : ((g.getD a []).set j d).getD b 0 = (g.getD a []).getD b 0 := by
        rw [List.getD_eq_getElem?_getD, List.getElem?_set_ne (by omega),
          ← List.getD_eq_getElem?_getD]
      rw [hcell, get2]
  · rw [if_neg (by tauto)]
    have hrowa : (g.set i ((g.getD i []).set j d)).getD a [] = g.getD a [] := by
      rw [List.getD_eq_getElem?_getD, List.getElem?_set_ne (by omega),
        ← List.getD_eq_getElem?_getD]
    rw [get2, set2, hrowa, get2]

/-- `findDistancesInner` with its `let` inlined (definitional). -/
theorem findDistancesInner_eq (loc : List Point) (i : Nat) (g : List (List ℝ)) (j : Nat) :
    findDistancesInner loc i g j =
      set2 (set2 g i j (cabs (loc.getD i default - loc.getD j default))) j i
        (cabs (loc.getD i default - loc.getD j default)) := rfl

/-- Read-out of the inner `for j := i+1` loop of `findDistances`: it
writes the pair distance at `[i][j]` and `[j][i]` for each `j` in the
range, and touches nothing else. -/
theorem findDistancesInner_read (loc : List Point) {V i : Nat} (hi : i < V) :
    ∀ (n s : Nat), i < s → s + n ≤ V → ∀ g, matShape g V →
      matShape ((List.range' s n).foldl (findDistancesInner loc i) g) V ∧
      ∀ a b : Nat,
        get2 ((List.range' s n).foldl (findDistancesInner loc i) g) a b =
          (if a = i ∧ s ≤ b ∧ b < s + n then
            cabs (loc.getD i default - loc.getD b default)
          else if b = i ∧ s ≤ a ∧ a < s + n then
            cabs (loc.getD i default - loc.getD a default)
          else get2 g a b) := by
  intro n
  induction n with
  | zero =>
    intro s his hsn g hg
    refine ⟨hg, ?_⟩
    intro a b
    rw [if_neg (by omega), if_neg (by omega)]
    rfl
  | succ n ih =>
    intro s his hsn g hg
    rw [List.range'_succ, List.foldl_cons]
    have hsV : s < V := by omega
    have hg' : matShape (findDistancesInner loc i g s) V := by
      rw [findDistancesInner_eq]
      exact matShape_set2 (matShape_set2 hg hi s _) hsV i _
    obtain ⟨hshape, hread⟩ := ih (s + 1) (by omega) (by omega)
      (findDistancesInner loc i g s) hg'
    refine ⟨hshape, ?_⟩
    intro a b
    rw [hread a b]
    have hread2 : get2 (findDistancesInner loc i g s) a b =
        if a = s ∧ b = i then cabs (loc.getD i default - loc.getD s default)
        else if a = i ∧ b = s then cabs (loc.getD i default - loc.getD s default)
        else get2 g a b := by
      rw [findDistancesInner_eq]
      rw [get2_set2 (matShape_set2 hg hi s _) hsV hi _ a b,
        get2_set2 hg hi hsV _ a b]
    rw [hread2]
    by_cases hai : a = i
    · subst hai
      by_cases hbi : b = a
      · rw [if_neg (by omega), if_neg (by omega), if_neg (by omega),
          if_neg (by omega), if_neg (by omega), if_neg (by omega)]
      · by_cases hbs : b = s
        · subst hbs
          rw [if_neg (by omega), if_neg (by omega), if_neg (by omega),
            if_pos ⟨rfl, rfl⟩, if_pos (by omega)]
        · by_cases hbr : s + 1 ≤ b ∧ b < s + 1 + n
          · rw [if_pos (by omega), if_pos (by omega)]
          · rw [if_neg (by omega), if_neg (by omega), if_neg (by omega),
              if_neg (by omega), if_neg (by omega), if_neg (by omega)]
    · by_cases hbi : b = i
      · by_cases has : a = s
        · subst has
          rw [if_neg (by omega), if_neg (by omega), if_pos ⟨rfl, hbi⟩,
            if_neg (by omega), if_pos (by omega)]
        · by_cases har : s + 1 ≤ a ∧ a < s + 1 + n
          · rw [if_neg (by omega), if_pos (by omega), if_neg (by omega),
              if_pos (by omega)]
          · rw [if_neg (by omega), if_neg (by omega), if_neg (by omega),
              if_neg (by omega), if_neg (by omega), if_neg (by omega)]
      · rw [if_neg (by omega), if_neg (by omega), if_neg (by omega),
          if_neg (by omega), if_neg (by omega), if_neg (by omega)]

/-- Read-out of the outer loop of `findDistances`' first phase. -/
theorem findDistancesOuter_read (loc : List Point) {V : Nat} :
    ∀ (n s : Nat), s + n ≤ V → ∀ g, matShape g V →
      matShape ((List.range' s n).foldl
        (fun g i => (List.range' (i + 1) (V - (i + 1))).foldl
          (findDistancesInner loc i) g) g) V ∧
      ∀ a b : Nat, a < V → b < V →
        get2 ((List.range' s n).foldl
          (fun g i => (List.range' (i + 1) (V - (i + 1))).foldl
            (findDistancesInner loc i) g) g) a b =
          (if a < b ∧ s ≤ a ∧ a < s + n then
            cabs (loc.getD a default - loc.getD b default)
          else if b < a ∧ s ≤ b ∧ b < s + n then
            cabs (loc.getD b default - loc.getD a default)
          else get2 g a b) := by
  intro n
  induction n with
  | zero =>
    intro s hsn g hg
    refine ⟨hg, ?_⟩
    intro a b ha hb
    rw [if_neg (by omega), if_neg (by omega)]
    rfl
  | succ n ih =>
    intro s hsn g hg
    rw [List.range'_succ, List.foldl_cons]
    have hsV : s < V := by omega
    obtain ⟨hg', hread2all⟩ := findDistancesInner_read loc hsV (V - (s + 1)) (s + 1)
      (by omega) (by omega) g hg
    obtain ⟨hshape, hread⟩ := ih (s + 1) (by omega) _ hg'
    refine ⟨hshape, ?_⟩
    intro a b ha hb
    rw [hread a b ha hb, hread2all a b]
    by_cases hab : a < b
    · by_cases has : a = s
      · subst has
        rw [if_neg (by omega), if_neg (by omega), if_pos ⟨rfl, by omega⟩,
          if_pos (by omega)]
      · by_cases har : s + 1 ≤ a ∧ a < s + 1 + n
        · rw [if_pos (by omega), if_pos (by omega)]
        · rw [if_neg (by omega), if_neg (by omega), if_neg (by omega),
            if_neg (by omega), if_neg (by omega), if_neg (by omega)]
    · by_cases hba : b < a
      · by_cases hbs : b = s
        · subst hbs
          rw [if_neg (by omega), if_neg (by omega), if_neg (by omega),
            if_pos ⟨rfl, by omega⟩, if_neg (by omega), if_pos (by omega)]
        · by_cases hbr : s + 1 ≤ b ∧ b < s + 1 + n
          · rw [if_neg (by omega), if_pos (by omega), if_neg (by omega),
              if_pos (by omega)]
          · rw [if_neg (by omega), if_neg (by omega), if_neg (by omega),
              if_neg (by omega), if_neg (by omega), if_neg (by omega)]
      · have hab' : a = b := by omega
        subst hab'
        rw [if_neg (by omega), if_neg (by omega), if_neg (by omega),
          if_neg (by omega), if_neg (by omega), if_neg (by omega)]

/-- Read-out of `findDistances`' second phase (the diagonal pass). -/
theorem findDistancesDiag_read (M : ℝ) {V : Nat} :
    ∀ (n s : Nat), s + n ≤ V → ∀ g, matShape g V →
      matShape ((List.range' s n).foldl (fun g i => set2 g i i M) g) V ∧
      ∀ a b : Nat,
        get2 ((List.range' s n).foldl (fun g i => set2 g i i M) g) a b =
          (if a = b ∧ s ≤ a ∧ a < s + n then M else get2 g a b) := by
  intro n
  induction n with
  | zero =>
    intro s hsn g hg
    refine ⟨hg, ?_⟩
    intro a b
    rw [if_neg (by omega)]
    rfl
  | succ n ih =>
    intro s hsn g hg
    rw [List.range'_succ, List.foldl_cons]
    have hsV : s < V := by omega
    have hg' : matShape (set2 g s s M) V := matShape_set2 hg hsV s M
    obtain ⟨hshape, hread⟩ := ih (s + 1) (by omega) _ hg'
    refine ⟨hshape, ?_⟩
    intro a b
    rw [hread a b, get2_set2 hg hsV hsV M a b]
    by_cases hab : a = b
    · subst hab
      by_cases has : a = s
      · subst has
        rw [if_neg (by omega), if_pos ⟨rfl, rfl⟩, if_pos (by omega)]
      · by_cases har : s + 1 ≤ a ∧ a < s + 1 + n
        · rw [if_pos (by omega), if_pos (by omega)]
        · rw [if_neg (by omega), if_neg (by omega), if_neg (by omega)]
    · rw [if_neg (by omega), if_neg (by omega), if_neg (by tauto)]

theorem matShape_replicate (V : Nat) :
    matShape (List.replicate V (List.replicate V (0 : ℝ))) V := by
  refine ⟨List.length_replicate V _, ?_⟩
  intro r hr
  rw [List.eq_of_mem_replicate hr]
  exact List.length_replicate V _

/-- `findDistances` with its `let`s inlined (definitional). -/
theorem findDistances_eq (loc : List Point) :
    findDistances loc =
      (List.range loc.length).foldl
        (fun g i => set2 g i i ((maxFloat64 : ℚ) : ℝ))
        ((List.range loc.length).foldl
          (fun g i => (List.range' (i + 1) (loc.length - (i + 1))).foldl
            (findDistancesInner loc i) g)
          (List.replicate loc.length (List.replicate loc.length (0 : ℝ)))) := rfl

/-- Full characterization of the distance matrix: entry `[a][b]` is the
Euclidean distance between points `a` and `b` off the diagonal, and the
`math.MaxFloat64` sentinel on it. -/
theorem findDistances_read (loc : List Point) (a b : Nat)
    (ha : a < loc.length) (hb : b < loc.length) :
    get2 (findDistances loc) a b =
      if a = b then ((maxFloat64 : ℚ) : ℝ)
      else cabs (loc.getD a default - loc.getD b default) := by
  rw [findDistances_eq]
  obtain ⟨hg1, hr1⟩ := findDistancesOuter_read loc (V := loc.length)
    loc.length 0 (by omega) _ (matShape_replicate loc.length)
  obtain ⟨-, hr2⟩ := findDistancesDiag_read ((maxFloat64 : ℚ) : ℝ)
    (V := loc.length) loc.length 0 (by omega) _ hg1
  rw [List.range_eq_range']
  rw [hr2 a b, hr1 a b ha hb]
  by_cases hab : a = b
  · subst hab
    rw [if_pos ⟨rfl, by omega⟩, if_pos rfl]
  · rw [if_neg (by tauto), if_neg hab]
    by_cases hlt : a < b
    · rw [if_pos (by omega)]
    · rw [if_neg (by omega), if_pos (by omega)]
      exact cabs_sub_comm _ _

/-- The distance matrix has `V` rows of length `V`. -/
theorem findDistances_shape (loc : List Point) :
    (findDistances loc).length = loc.length ∧
      ∀ r ∈ findDistances loc, r.length = loc.length := by
  rw [findDistances_eq]
  obtain ⟨hg1, -⟩ := findDistancesOuter_read loc (V := loc.length)
    loc.length 0 (by omega) _ (matShape_replicate loc.length)
  obtain ⟨hg2, -⟩ := findDistancesDiag_read ((maxFloat64 : ℚ) : ℝ)
    (V := loc.length) loc.length 0 (by omega) _ hg1
  rw [List.range_eq_range']
  exact hg2

/-- On `locD` the sentinel is not strictly larger than the off-diagonal
entry: the two points are exactly `math.MaxFloat64` apart. -/
theorem findDistances_locD_flat :
    get2 (findDistances locD) 0 1 = ((maxFloat64 : ℚ) : ℝ) ∧
      get2 (findDistances locD) 0 0 = ((maxFloat64 : ℚ) : ℝ) := by
  rw [graphD_eq]
  constructor <;> simp [get2, graphD, natScale]


/-! ### The solver's tree invariant

The slot/vertex confusion corrupts the queue's distances, so the pop
order is wrong and minimality fails; but every write `p.mst[w] = &Edge{v,w}`
still records a parent edge from the unmarked `w` to the marked `v`, so
the recorded structure is a spanning tree whenever the run returns.  The
invariant below captures this; `ord` is the order in which vertices were
marked. -/

theorem getD_set_self {β : Type} (l : List β) (i : Nat) (b : β) (d : β)
    (h : i < l.length) : (l.set i b).getD i d = b := by
  rw [List.getD_eq_getElem?_getD, List.getElem?_set_self h]
  rfl

theorem getD_set_ne {β : Type} (l : List β) (i u : Nat) (b : β) (d : β)
    (h : i ≠ u) : (l.set i b).getD u d = l.getD u d := by
  rw [List.getD_eq_getElem?_getD, List.getElem?_set_ne h,
    ← List.getD_eq_getElem?_getD]

theorem getD_replicate {β : Type} (n u : Nat) (b : β) (d : β) (h : u < n) :
    (List.replicate n b).getD u d = b := by
  rw [List.getD_eq_getElem?_getD, List.getElem?_eq_getElem (by simpa using h)]
  simp

theorem indexOf_append_mem {a : Nat} {l : List Nat} (h : a ∈ l) (x : Nat) :
    (l ++ [x]).indexOf a = l.indexOf a := by
  induction l with
  | nil => cases h
  | cons b t ih =>
    rcases List.mem_cons.mp h with rfl | hmem
    · simp [List.indexOf_cons_self]
    · by_cases hab : a = b
      · subst hab
        simp [List.indexOf_cons_self]
      · rw [List.cons_append, List.indexOf_cons_ne _ (by omega),
          List.indexOf_cons_ne _ (by omega), ih hmem]

theorem indexOf_append_self {x : Nat} {l : List Nat} (h : x ∉ l) :
    (l ++ [x]).indexOf x = l.length := by
  induction l with
  | nil => simp
  | cons b t ih =>
    have hxb : x ≠ b := by
      intro he
      exact h (he ▸ List.mem_cons_self b t)
    rw [List.cons_append, List.indexOf_cons_ne _ (by omega), List.length_cons,
      ih (fun hm => h (List.mem_cons_of_mem b hm))]

/-- Every item of the queue satisfies `P` at its vertex field. -/
def pqW (P : Nat → Prop) (pq : List (Item ℝ)) : Prop :=
  ∀ it ∈ pq, P it.w

theorem mem_of_getElem?_eq {β : Type} {l : List β} {i : Nat} {a : β}
    (h : l[i]? = some a) : a ∈ l := by
  obtain ⟨hl, he⟩ := List.getElem?_eq_some.mp h
  exact he ▸ List.getElem_mem hl

theorem pqW_getE {P : Nat → Prop} {pq : List (Item ℝ)} {i : Nat} {a : Item ℝ}
    (hpq : pqW P pq) (h : getE pq i = .ok a) : P a.w := by
  rw [getE_eq_ok_iff] at h
  exact hpq a (mem_of_getElem?_eq h)

theorem pqW_setE {P : Nat → Prop} {pq : List (Item ℝ)} {i : Nat} {b : Item ℝ}
    {pq' : List (Item ℝ)} (hpq : pqW P pq) (hb : P b.w)
    (h : setE pq i b = .ok pq') : pqW P pq' := by
  obtain ⟨-, rfl⟩ := setE_eq_ok_iff.mp h
  intro it hit
  rcases List.mem_or_eq_of_mem_set hit with hm | rfl
  · exact hpq it hm
  · exact hb

theorem pqW_pqSwap {P : Nat → Prop} {pq : List (Item ℝ)} {i j : Nat}
    {pq' : List (Item ℝ)} (hpq : pqW P pq) (h : pqSwap pq i j = .ok pq') :
    pqW P pq' := by
  unfold pqSwap at h
  obtain ⟨a, ha, h⟩ := exceptBind_eq_ok h
  obtain ⟨b, hb, h⟩ := exceptBind_eq_ok h
  obtain ⟨pq1, hpq1, h⟩ := exceptBind_eq_ok h
  have h1 : pqW P pq1 := by
    refine pqW_setE hpq ?_ hpq1
    show P b.w
    exact pqW_getE hpq hb
  refine pqW_setE h1 ?_ h
  show P a.w
  exact pqW_getE hpq ha

theorem pqW_heapUp {P : Nat → Prop} :
    ∀ (fuel : Nat) (pq : List (Item ℝ)) (j : Nat) (pq' : List (Item ℝ)),
      pqW P pq → heapUp fuel pq j = .ok pq' → pqW P pq' := by
  intro fuel
  induction fuel with
  | zero =>
    intro pq j pq' hpq h
    rw [heapUp] at h
    split at h
    · cases h
      exact hpq
    · obtain ⟨b, -, h⟩ := exceptBind_eq_ok h
      split at h
      · cases h
      · cases h
        exact hpq
  | succ fuel ih =>
    intro pq j pq' hpq h
    rw [heapUp] at h
    split at h
    · cases h
      exact hpq
    · obtain ⟨b, -, h⟩ := exceptBind_eq_ok h
      split at h
      · obtain ⟨pq1, hpq1, h⟩ := exceptBind_eq_ok h
        exact ih pq1 _ pq' (pqW_pqSwap hpq hpq1) h
      · cases h
        exact hpq

theorem pqW_heapDown {P : Nat → Prop} :
    ∀ (fuel : Nat) (pq : List (Item ℝ)) (i n : Nat) (r : Nat × List (Item ℝ)),
      pqW P pq → heapDown fuel pq i n = .ok r → pqW P r.2 := by
  intro fuel
  induction fuel with
  | zero =>
    intro pq i n r hpq h
    rw [heapDown] at h
    split at h
    · cases h
      exact hpq
    · dsimp only at h
      split at h
      · obtain ⟨b1, -, h⟩ := exceptBind_eq_ok h
        obtain ⟨y, -, h⟩ := exceptBind_eq_ok h
        obtain ⟨b2, -, h⟩ := exceptBind_eq_ok h
        split at h
        · cases h
        · cases h
          exact hpq
      · obtain ⟨y, -, h⟩ := exceptBind_eq_ok h
        obtain ⟨b2, -, h⟩ := exceptBind_eq_ok h
        split at h
        · cases h
        · cases h
          exact hpq
  | succ fuel ih =>
    intro pq i n r hpq h
    rw [heapDown] at h
    split at h
    · cases h
      exact hpq
    · dsimp only at h
      split at h
      · obtain ⟨b1, -, h⟩ := exceptBind_eq_ok h
        obtain ⟨y, -, h⟩ := exceptBind_eq_ok h
        obtain ⟨b2, -, h⟩ := exceptBind_eq_ok h
        split at h
        · obtain ⟨pq1, hpq1, h⟩ := exceptBind_eq_ok h
          exact ih pq1 _ _ r (pqW_pqSwap hpq hpq1) h
        · cases h
          exact hpq
      · obtain ⟨y, -, h⟩ := exceptBind_eq_ok h
        obtain ⟨b2, -, h⟩ := exceptBind_eq_ok h
        split at h
        · obtain ⟨pq1, hpq1, h⟩ := exceptBind_eq_ok h
          exact ih pq1 _ _ r (pqW_pqSwap hpq hpq1) h
        · cases h
          exact hpq

theorem pqW_heapPushGo {P : Nat → Prop} {pq : List (Item ℝ)} {it : Item ℝ}
    {pq' : List (Item ℝ)} (hpq : pqW P pq) (hit : P it.w)
    (h : heapPushGo pq it = .ok pq') : pqW P pq' := by
  unfold heapPushGo at h
  refine pqW_heapUp _ _ _ _ ?_ h
  intro x hx
  rcases List.mem_append.mp hx with hm | hm
  · exact hpq x hm
  · rw [List.mem_singleton.mp hm]
    exact hit

theorem pqW_heapPopGo {P : Nat → Prop} {pq : List (Item ℝ)}
    {r : Item ℝ × List (Item ℝ)} (hpq : pqW P pq)
    (h : heapPopGo pq = .ok r) : P r.1.w ∧ pqW P r.2 := by
  unfold heapPopGo at h
  dsimp only at h
  obtain ⟨pq1, hpq1, h⟩ := exceptBind_eq_ok h
  obtain ⟨r2, hr2, h⟩ := exceptBind_eq_ok h
  have h1 : pqW P pq1 := pqW_pqSwap hpq hpq1
  have h2 : pqW P r2.2 := pqW_heapDown _ _ _ _ _ h1 hr2
  cases hL : r2.2.getLast? with
  | none =>
    rw [hL] at h
    cases h
  | some it =>
    rw [hL] at h
    dsimp only at h
    cases h
    constructor
    · have hmem : it ∈ r2.2 := by
        obtain ⟨hne, he⟩ := List.mem_getLast?_eq_getLast (Option.mem_def.mpr hL)
        rw [he]
        exact List.getLast_mem hne
      exact h2 it hmem
    · intro x hx
      exact h2 x (List.dropLast_subset _ hx)

theorem pqW_heapFixGo {P : Nat → Prop} {pq : List (Item ℝ)} {i : Nat}
    {pq' : List (Item ℝ)} (hpq : pqW P pq) (h : heapFixGo pq i = .ok pq') :
    pqW P pq' := by
  unfold heapFixGo at h
  obtain ⟨r, hr, h⟩ := exceptBind_eq_ok h
  have h1 : pqW P r.2 := pqW_heapDown _ _ _ _ _ hpq hr
  split at h
  · cases h
    exact h1
  · exact pqW_heapUp _ _ _ _ h1 h

theorem pqW_mono {P P' : Nat → Prop} {pq : List (Item ℝ)}
    (himp : ∀ w, P w → P' w) (hpq : pqW P pq) : pqW P' pq :=
  fun it hit => himp _ (hpq it hit)

/-- The loop invariant of `findMST`.  `ord` lists the marked vertices in
marking order: entries of marked vertices point strictly backwards in
`ord`, entries of unmarked vertices point into `ord`, and a vertex with
no entry yet still has its `distTo` at the untouched sentinel. -/
def primInv (V : Nat) (M : ℝ) (s : PrimState ℝ) (ord : List Nat) : Prop :=
  s.marked.length = V ∧ s.distTo.length = V ∧ s.mst.length = V ∧
  ord.Nodup ∧ (∀ m ∈ ord, m < V) ∧
  (∀ u, u < V → (s.marked.getD u false = true ↔ u ∈ ord)) ∧
  s.mst.getD 0 none = none ∧
  (∀ u ∈ ord, u ≠ 0 → ∃ e, s.mst.getD u none = some e ∧ e.w = u ∧
    e.v < V ∧ e.v ≠ u ∧ e.v ∈ ord ∧ ord.indexOf e.v < ord.indexOf u) ∧
  (∀ u, 1 ≤ u → u < V →
    (∃ e, s.mst.getD u none = some e ∧ e.w = u ∧ e.v < V ∧ e.v ≠ u ∧ e.v ∈ ord) ∨
    (s.mst.getD u none = none ∧ s.distTo.getD u 0 = M)) ∧
  pqW (fun x => x = 0 ∨ s.mst.getD x none ≠ none) s.pq

/-- All vertices `1..V-1` have a recorded parent edge into `ord`. -/
def goodEntries (V : Nat) (mst : List (Option Edge)) (ord : List Nat) : Prop :=
  ∀ u, 1 ≤ u → u < V →
    ∃ e, mst.getD u none = some e ∧ e.w = u ∧ e.v < V ∧ e.v ≠ u ∧ e.v ∈ ord

/-- In a nonempty marking order the first vertex marked is the start
vertex `0`. -/
theorem primInv_zero_mem {V : Nat} {M : ℝ} {s : PrimState ℝ} {ord : List Nat}
    (hinv : primInv V M s ord) (hne : ord ≠ []) : 0 ∈ ord := by
  obtain ⟨-, -, -, -, -, -, -, h8, -, -⟩ := hinv
  cases ord with
  | nil => exact absurd rfl hne
  | cons z t =>
    by_cases hz : z = 0
    · rw [hz]
      exact List.mem_cons_self 0 t
    · obtain ⟨e, -, -, -, -, -, hlt⟩ := h8 z (List.mem_cons_self z t) hz
      rw [List.indexOf_cons_self] at hlt
      omega

/-- Invariant preservation through `visit`'s row loop: the scan from
index `w` over the remaining row suffix keeps `primInv` (with the marking
order unchanged) and guarantees a recorded parent edge for every vertex
the scan has passed. -/
theorem visitLoop_inv (V : Nat) (M : ℝ) (v : Nat) :
    ∀ (rest : List ℝ) (w : Nat) (s : PrimState ℝ) (ord : List Nat),
      v ∈ ord →
      (∀ k, k < rest.length → w + k ≠ v → rest.getD k 0 < M) →
      primInv V M s ord →
      (∀ u, 1 ≤ u → u < V → u < w →
        ∃ e, s.mst.getD u none = some e ∧ e.w = u ∧ e.v < V ∧ e.v ≠ u ∧ e.v ∈ ord) →
      ∀ (s' : PrimState ℝ), visitLoop v rest w s = .ok s' →
      primInv V M s' ord ∧
      (∀ u, 1 ≤ u → u < V → u < w + rest.length →
        ∃ e, s'.mst.getD u none = some e ∧ e.w = u ∧ e.v < V ∧ e.v ≠ u ∧ e.v ∈ ord) := by
  intro rest
  induction rest with
  | nil =>
    intro w s ord hvo hrest hinv hscan s' h
    cases h
    exact ⟨hinv, fun u h1 h2 h3 => hscan u h1 h2 (by simp at h3; omega)⟩
  | cons dist rest ih =>
    intro w s ord hvo hrest hinv hscan s' h
    obtain ⟨hm1, hd1, hs1, hnd, hltV, hmo, h0, h8, h9, hQ⟩ := hinv
    rw [visitLoop] at h
    obtain ⟨mw, hmw, h⟩ := exceptBind_eq_ok h
    obtain ⟨hmwv, hwlen⟩ := getE_ok_val hmw
    have hmwv' : s.marked.getD w false = mw := hmwv
    have hwV : w < V := by omega
    have hrest' : ∀ k, k < rest.length → (w + 1) + k ≠ v → rest.getD k 0 < M := by
      intro k hk hne
      have h2 := hrest (k + 1) (by simp only [List.length_cons]; omega) (by omega)
      simpa [List.getD_cons_succ] using h2
    split at h
    · -- the vertex `w` is already marked: skip
      rename_i hmt
      have hword : w ∈ ord := (hmo w hwV).mp (by rw [hmwv']; exact hmt)
      have hscan' : ∀ u, 1 ≤ u → u < V → u < w + 1 →
          ∃ e, s.mst.getD u none = some e ∧ e.w = u ∧ e.v < V ∧ e.v ≠ u ∧ e.v ∈ ord := by
        intro u h1u h2u h3u
        rcases Nat.lt_or_ge u w with hu | hu
        · exact hscan u h1u h2u hu
        · have huw : u = w := by omega
          subst huw
          obtain ⟨e, he, hew, hev, hene, hevo, -⟩ := h8 u hword (by omega)
          exact ⟨e, he, hew, hev, hene, hevo⟩
      have hmain := ih (w + 1) s ord hvo hrest'
        ⟨hm1, hd1, hs1, hnd, hltV, hmo, h0, h8, h9, hQ⟩ hscan' s' h
      refine ⟨hmain.1, ?_⟩
      intro u h1u h2u h3u
      rw [List.length_cons] at h3u
      exact hmain.2 u h1u h2u (by omega)
    · -- unmarked
      rename_i hmf
      have hmwf : s.marked.getD w false = false := by
        rw [hmwv']
        revert hmf
        cases mw <;> simp
      have hwnord : w ∉ ord := by
        intro hmem
        have := (hmo w hwV).mpr hmem
        rw [hmwf] at this
        cases this
      have hordne : ord ≠ [] := by
        intro hnil
        rw [hnil] at hvo
        cases hvo
      have hwne0 : w ≠ 0 := by
        intro h0w
        subst h0w
        exact hwnord (primInv_zero_mem
          ⟨hm1, hd1, hs1, hnd, hltV, hmo, h0, h8, h9, hQ⟩ hordne)
      have hwnev : w ≠ v := fun he => hwnord (he ▸ hvo)
      have hvV : v < V := hltV v hvo
      obtain ⟨dtw, hdtw, h⟩ := exceptBind_eq_ok h
      obtain ⟨hdtwv, hdlen⟩ := getE_ok_val hdtw
      have hdtwv' : s.distTo.getD w 0 = dtw := hdtwv
      have hdM : dist < M := by
        have h2 := hrest 0 (by simp) (by omega)
        simpa using h2
      split at h
      · -- dist < distTo[w] : record the edge, lower distTo, touch the queue
        rename_i hlt2
        obtain ⟨mst', hmst', h⟩ := exceptBind_eq_ok h
        obtain ⟨hmlt, hmsteq⟩ := setE_eq_ok_iff.mp hmst'
        obtain ⟨dt2, hdt2, h⟩ := exceptBind_eq_ok h
        obtain ⟨hdlt2, hdteq⟩ := setE_eq_ok_iff.mp hdt2
        subst hmsteq hdteq
        dsimp only at h
        have hs1' : (s.mst.set w (some ⟨v, w⟩)).length = V := by
          rw [List.length_set]
          exact hs1
        have hd1' : (s.distTo.set w dist).length = V := by
          rw [List.length_set]
          exact hd1
        have h0' : (s.mst.set w (some ⟨v, w⟩)).getD 0 none = none := by
          rw [getD_set_ne _ _ _ _ _ (by omega)]
          exact h0
        have h8' : ∀ u ∈ ord, u ≠ 0 →
            ∃ e, (s.mst.set w (some ⟨v, w⟩)).getD u none = some e ∧ e.w = u ∧
              e.v < V ∧ e.v ≠ u ∧ e.v ∈ ord ∧ ord.indexOf e.v < ord.indexOf u := by
          intro u hu hu0
          obtain ⟨e, he, hrest2⟩ := h8 u hu hu0
          have huw : w ≠ u := fun he2 => hwnord (he2 ▸ hu)
          exact ⟨e, by rw [getD_set_ne _ _ _ _ _ huw]; exact he, hrest2⟩
        have h9' : ∀ u, 1 ≤ u → u < V →
            (∃ e, (s.mst.set w (some ⟨v, w⟩)).getD u none = some e ∧ e.w = u ∧
              e.v < V ∧ e.v ≠ u ∧ e.v ∈ ord) ∨
            ((s.mst.set w (some ⟨v, w⟩)).getD u none = none ∧
              (s.distTo.set w dist).getD u 0 = M) := by
          intro u h1u h2u
          by_cases huw : u = w
          · subst huw
            left
            exact ⟨⟨v, u⟩, getD_set_self _ _ _ _ (by omega), rfl, hvV,
              fun he => hwnev he.symm, hvo⟩
          · rcases h9 u h1u h2u with ⟨e, he, hrest2⟩ | ⟨hnone, hM⟩
            · left
              exact ⟨e, by rw [getD_set_ne _ _ _ _ _ (by omega)]; exact he, hrest2⟩
            · right
              refine ⟨?_, ?_⟩
              · rw [getD_set_ne _ _ _ _ _ (by omega)]
                exact hnone
              · rw [getD_set_ne _ _ _ _ _ (by omega)]
                exact hM
        have hscan' : ∀ u, 1 ≤ u → u < V → u < w + 1 →
            ∃ e, (s.mst.set w (some ⟨v, w⟩)).getD u none = some e ∧ e.w = u ∧
              e.v < V ∧ e.v ≠ u ∧ e.v ∈ ord := by
          intro u h1u h2u h3u
          rcases Nat.lt_or_ge u w with hu | hu
          · obtain ⟨e, he, hrest2⟩ := hscan u h1u h2u hu
            exact ⟨e, by rw [getD_set_ne _ _ _ _ _ (by omega)]; exact he, hrest2⟩
          · have huw : u = w := by omega
            subst huw
            exact ⟨⟨v, u⟩, getD_set_self _ _ _ _ (by omega), rfl, hvV,
              fun he => hwnev he.symm, hvo⟩
        have hQ2 : pqW (fun x => x = 0 ∨
            (s.mst.set w (some ⟨v, w⟩)).getD x none ≠ none) s.pq := by
          refine pqW_mono ?_ hQ
          intro x hx
          rcases hx with hx0 | hxs
          · exact Or.inl hx0
          · right
            by_cases hxw : x = w
            · subst hxw
              rw [getD_set_self _ _ _ _ (by omega)]
              simp
            · rw [getD_set_ne _ _ _ _ _ (by omega)]
              exact hxs
        cases hq : s.pq[w]? with
        | some item =>
          rw [hq] at h
          dsimp only at h
          obtain ⟨pq1, hpq1, h⟩ := exceptBind_eq_ok h
          obtain ⟨pq2, hpq2, h⟩ := exceptBind_eq_ok h
          have hQ3 : pqW (fun x => x = 0 ∨
              (s.mst.set w (some ⟨v, w⟩)).getD x none ≠ none) pq1 := by
            refine pqW_setE hQ2 ?_ hpq1
            show item.w = 0 ∨ (s.mst.set w (some ⟨v, w⟩)).getD item.w none ≠ none
            exact hQ2 item (mem_of_getElem?_eq hq)
          have hQ4 := pqW_heapFixGo hQ3 hpq2
          have hmain := ih (w + 1) _ ord hvo hrest'
            (by exact ⟨hm1, hd1', hs1', hnd, hltV, hmo, h0', h8', h9', hQ4⟩)
            (by exact hscan') s' h
          refine ⟨hmain.1, ?_⟩
          intro u h1u h2u h3u
          rw [List.length_cons] at h3u
          exact hmain.2 u h1u h2u (by omega)
        | none =>
          rw [hq] at h
          dsimp only at h
          obtain ⟨pq1, hpq1, h⟩ := exceptBind_eq_ok h
          have hQ3 : pqW (fun x => x = 0 ∨
              (s.mst.set w (some ⟨v, w⟩)).getD x none ≠ none) pq1 := by
            refine pqW_heapPushGo hQ2 ?_ hpq1
            show w = 0 ∨ (s.mst.set w (some ⟨v, w⟩)).getD w none ≠ none
            refine Or.inr ?_
            rw [getD_set_self _ _ _ _ (by omega)]
            simp
          have hmain := ih (w + 1) _ ord hvo hrest'
            (by exact ⟨hm1, hd1', hs1', hnd, hltV, hmo, h0', h8', h9', hQ3⟩)
            (by exact hscan') s' h
          refine ⟨hmain.1, ?_⟩
          intro u h1u h2u h3u
          rw [List.length_cons] at h3u
          exact hmain.2 u h1u h2u (by omega)
      · -- distTo[w] is already at most dist: skip, but the entry must exist
        rename_i hnlt
        have hscan' : ∀ u, 1 ≤ u → u < V → u < w + 1 →
            ∃ e, s.mst.getD u none = some e ∧ e.w = u ∧ e.v < V ∧ e.v ≠ u ∧
              e.v ∈ ord := by
          intro u h1u h2u h3u
          rcases Nat.lt_or_ge u w with hu | hu
          · exact hscan u h1u h2u hu
          · have huw : u = w := by omega
            subst huw
            rcases h9 u h1u h2u with hgood | ⟨hnone, hM⟩
            · exact hgood
            · exfalso
              rw [hdtwv'] at hM
              subst hM
              exact hnlt hdM
        have hmain := ih (w + 1) s ord hvo hrest'
          ⟨hm1, hd1, hs1, hnd, hltV, hmo, h0, h8, h9, hQ⟩ hscan' s' h
        refine ⟨hmain.1, ?_⟩
        intro u h1u h2u h3u
        rw [List.length_cons] at h3u
        exact hmain.2 u h1u h2u (by omega)

/-- `visit(v)` preserves the invariant, extends the marking order with
`v`, and leaves every vertex `1..V-1` with a recorded parent edge. -/
theorem visitGo_inv (V : Nat) (M : ℝ) (graph : List (List ℝ))
    (hgl : graph.length = V) (hrows : ∀ r ∈ graph, r.length = V)
    (hoff : ∀ i j, i < V → j < V → i ≠ j → (graph.getD i []).getD j 0 < M)
    (v : Nat) (s : PrimState ℝ) (ord : List Nat)
    (hinv : primInv V M s ord)
    (hQv : v = 0 ∨ s.mst.getD v none ≠ none)
    (s' : PrimState ℝ) (h : visitGo graph v s = .ok s') :
    ∃ ord', primInv V M s' ord' ∧ goodEntries V s'.mst ord' := by
  obtain ⟨hm1, hd1, hs1, hnd, hltV, hmo, h0, h8, h9, hQ⟩ := hinv
  unfold visitGo at h
  obtain ⟨marked', hset, h⟩ := exceptBind_eq_ok h
  obtain ⟨hvlen, hmeq⟩ := setE_eq_ok_iff.mp hset
  subst hmeq
  obtain ⟨row, hrow, h⟩ := exceptBind_eq_ok h
  have hvV : v < V := by omega
  obtain ⟨hroweq, -⟩ := getE_ok_val hrow
  have hroweq' : graph.getD v [] = row := hroweq
  have hrowlen : row.length = V := by
    rw [← hroweq']
    exact hrows _ (getD_row_mem (by omega))
  have hrest : ∀ k, k < row.length → 0 + k ≠ v → row.getD k 0 < M := by
    intro k hk hkv
    rw [← hroweq']
    exact hoff v k hvV (by omega) (by omega)
  by_cases hvm : v ∈ ord
  · -- already marked: the order does not change
    have hinv1 : primInv V M { s with marked := s.marked.set v true } ord := by
      refine ⟨by rw [List.length_set]; exact hm1, hd1, hs1, hnd, hltV, ?_,
        h0, h8, h9, hQ⟩
      intro u huV
      by_cases huv : u = v
      · subst huv
        rw [getD_set_self _ _ _ _ (by omega)]
        simpa using hvm
      · rw [getD_set_ne _ _ _ _ _ (fun he => huv he.symm)]
        exact hmo u huV
    have hmain := visitLoop_inv V M v row 0 _ ord hvm hrest hinv1
      (by intro u h1 h2 h3; omega) s' h
    refine ⟨ord, hmain.1, ?_⟩
    intro u h1 h2
    exact hmain.2 u h1 h2 (by rw [hrowlen]; omega)
  · -- newly marked: append `v` to the order
    have hnd' : (ord ++ [v]).Nodup := by
      rw [List.nodup_append]
      refine ⟨hnd, List.nodup_singleton v, ?_⟩
      intro a ha hb
      rw [List.mem_singleton] at hb
      subst hb
      exact hvm ha
    have hltV' : ∀ m ∈ ord ++ [v], m < V := by
      intro m hm
      rcases List.mem_append.mp hm with hm | hm
      · exact hltV m hm
      · rw [List.mem_singleton.mp hm]
        exact hvV
    have hmo' : ∀ u, u < V →
        ((s.marked.set v true).getD u false = true ↔ u ∈ ord ++ [v]) := by
      intro u huV
      by_cases huv : u = v
      · subst huv
        rw [getD_set_self _ _ _ _ (by omega)]
        simp
      · rw [getD_set_ne _ _ _ _ _ (fun he => huv he.symm)]
        rw [hmo u huV]
        simp [List.mem_append, huv]
    have h8' : ∀ u ∈ ord ++ [v], u ≠ 0 →
        ∃ e, s.mst.getD u none = some e ∧ e.w = u ∧ e.v < V ∧ e.v ≠ u ∧
          e.v ∈ ord ++ [v] ∧
          (ord ++ [v]).indexOf e.v < (ord ++ [v]).indexOf u := by
      intro u hu hu0
      rcases List.mem_append.mp hu with hum | hum
      · obtain ⟨e, he, hew, hev, hene, hevo, hidx⟩ := h8 u hum hu0
        exact ⟨e, he, hew, hev, hene, List.mem_append.mpr (Or.inl hevo), by
          rw [indexOf_append_mem hevo, indexOf_append_mem hum]
          exact hidx⟩
      · rw [List.mem_singleton] at hum
        rcases hQv with hv0 | hvsome
        · exact absurd (hum.trans hv0) hu0
        · rcases h9 u (by omega) (hum ▸ hvV) with
            ⟨e, he, hew, hev, hene, hevo⟩ | ⟨hnone, -⟩
          · refine ⟨e, he, hew, hev, hene,
              List.mem_append.mpr (Or.inl hevo), ?_⟩
            rw [indexOf_append_mem hevo, hum, indexOf_append_self hvm]
            exact List.indexOf_lt_length.mpr hevo
          · exact absurd (hum ▸ hnone) hvsome
    have h9' : ∀ u, 1 ≤ u → u < V →
        (∃ e, s.mst.getD u none = some e ∧ e.w = u ∧ e.v < V ∧ e.v ≠ u ∧
          e.v ∈ ord ++ [v]) ∨
        (s.mst.getD u none = none ∧ s.distTo.getD u 0 = M) := by
      intro u h1 h2
      rcases h9 u h1 h2 with ⟨e, he, hew, hev, hene, hevo⟩ | hright
      · exact Or.inl ⟨e, he, hew, hev, hene, List.mem_append.mpr (Or.inl hevo)⟩
      · exact Or.inr hright
    have hinv1 : primInv V M { s with marked := s.marked.set v true } (ord ++ [v]) :=
      ⟨by rw [List.length_set]; exact hm1, hd1, hs1, hnd', hltV', hmo',
        h0, h8', h9', hQ⟩
    have hvo' : v ∈ ord ++ [v] :=
      List.mem_append.mpr (Or.inr (List.mem_singleton.mpr rfl))
    have hmain := visitLoop_inv V M v row 0 _ (ord ++ [v]) hvo' hrest hinv1
      (by intro u h1 h2 h3; omega) s' h
    refine ⟨ord ++ [v], hmain.1, ?_⟩
    intro u h1 h2
    exact hmain.2 u h1 h2 (by rw [hrowlen]; omega)

/-- One main-loop iteration (`heap.Pop` then `visit`) preserves the
invariant and leaves all entries recorded. -/
theorem mstStep_inv (V : Nat) (M : ℝ) (graph : List (List ℝ))
    (hgl : graph.length = V) (hrows : ∀ r ∈ graph, r.length = V)
    (hoff : ∀ i j, i < V → j < V → i ≠ j → (graph.getD i []).getD j 0 < M)
    (s : PrimState ℝ) (ord : List Nat) (hinv : primInv V M s ord)
    (s' : PrimState ℝ) (h : mstStep graph s = .ok s') :
    ∃ ord', primInv V M s' ord' ∧ goodEntries V s'.mst ord' := by
  unfold mstStep at h
  obtain ⟨r, hpop, h⟩ := exceptBind_eq_ok h
  obtain ⟨hm1, hd1, hs1, hnd, hltV, hmo, h0, h8, h9, hQ⟩ := hinv
  obtain ⟨hPr, hPpq⟩ := pqW_heapPopGo hQ hpop
  have hinv1 : primInv V M { s with pq := r.2 } ord :=
    ⟨hm1, hd1, hs1, hnd, hltV, hmo, h0, h8, h9, hPpq⟩
  exact visitGo_inv V M graph hgl hrows hoff r.1.w _ ord hinv1 hPr s' h

/-- The main loop preserves the invariant along any successful run. -/
theorem mstLoop_inv_run (V : Nat) (M : ℝ) (graph : List (List ℝ))
    (hgl : graph.length = V) (hrows : ∀ r ∈ graph, r.length = V)
    (hoff : ∀ i j, i < V → j < V → i ≠ j → (graph.getD i []).getD j 0 < M) :
    ∀ (fuel : Nat) (s : PrimState ℝ) (ord : List Nat), primInv V M s ord →
      ∀ s', mstLoop graph fuel s = .ok s' →
      s' = s ∨ ∃ ord', primInv V M s' ord' ∧ goodEntries V s'.mst ord' := by
  intro fuel
  induction fuel with
  | zero =>
    intro s ord hinv s' h
    rw [mstLoop] at h
    split at h
    · cases h
      exact Or.inl rfl
    · cases h
  | succ fuel ih =>
    intro s ord hinv s' h
    rw [mstLoop] at h
    split at h
    · cases h
      exact Or.inl rfl
    · obtain ⟨s1, hstep, h⟩ := exceptBind_eq_ok h
      obtain ⟨ord1, hinv1, hgood1⟩ :=
        mstStep_inv V M graph hgl hrows hoff s ord hinv s1 hstep
      rcases ih s1 ord1 hinv1 s' h with rfl | hres
      · exact Or.inr ⟨ord1, hinv1, hgood1⟩
      · exact Or.inr hres

theorem reachIn_zero_vertex (mst : List (Option Edge)) :
    ∀ n, reachIn mst n 0 = true := by
  intro n
  cases n <;> simp [reachIn]

theorem reachIn_succ_of (mst : List (Option Edge)) :
    ∀ n w, reachIn mst n w = true → reachIn mst (n + 1) w = true := by
  intro n
  induction n with
  | zero =>
    intro w h
    rw [reachIn] at h
    have hw : w = 0 := by simpa using h
    subst hw
    exact reachIn_zero_vertex mst 1
  | succ n ih =>
    intro w h
    rw [reachIn] at h
    rw [reachIn]
    rcases (Bool.or_eq_true _ _).mp h with h0 | hm
    · simp [h0]
    · cases hw : mst.getD w none with
      | none =>
        rw [hw] at hm
        cases hm
      | some e =>
        rw [hw] at hm
        have hr := ih e.v (by simpa using hm)
        simp [hr]

theorem reachIn_le (mst : List (Option Edge)) {n m : Nat} (h : n ≤ m)
    (w : Nat) (hr : reachIn mst n w = true) : reachIn mst m w = true := by
  have key : ∀ k w, reachIn mst n w = true → reachIn mst (n + k) w = true := by
    intro k
    induction k with
    | zero => exact fun w h2 => h2
    | succ k ih => exact fun w h2 => reachIn_succ_of mst (n + k) w (ih w h2)
  have hm : m = n + (m - n) := by omega
  rw [hm]
  exact key (m - n) w hr

/-- Every marked vertex reaches the start vertex through the parent map,
within one more step than its position in the marking order. -/
theorem reach_of_ord {V : Nat} {M : ℝ} {s : PrimState ℝ} {ord : List Nat}
    (hinv : primInv V M s ord) :
    ∀ k, ∀ u ∈ ord, ord.indexOf u = k → reachIn s.mst (k + 1) u = true := by
  obtain ⟨-, -, -, -, -, -, -, h8, -, -⟩ := hinv
  intro k
  induction k using Nat.strong_induction_on with
  | _ k ih =>
    intro u hu hidx
    by_cases hu0 : u = 0
    · subst hu0
      exact reachIn_zero_vertex _ _
    · obtain ⟨e, he, -, -, -, hevo, hlt⟩ := h8 u hu hu0
      rw [hidx] at hlt
      have hre := ih (ord.indexOf e.v) hlt e.v hevo rfl
      have hreK : reachIn s.mst k e.v = true :=
        reachIn_le s.mst (by omega) e.v hre
      rw [reachIn, he]
      simp [hreK]

theorem ord_card_le {V : Nat} {ord : List Nat} (hnd : ord.Nodup)
    (hltV : ∀ m ∈ ord, m < V) : ord.length ≤ V := by
  have h1 : ord.toFinset.card = ord.length := List.toFinset_card_of_nodup hnd
  have h2 : ord.toFinset ⊆ Finset.range V := by
    intro a ha
    rw [List.mem_toFinset] at ha
    rw [Finset.mem_range]
    exact hltV a ha
  have h3 := Finset.card_le_card h2
  rw [Finset.card_range] at h3
  omega

theorem ord_card_lt {V : Nat} {ord : List Nat} (hnd : ord.Nodup)
    (hltV : ∀ m ∈ ord, m < V) {w : Nat} (hw : w < V) (hwn : w ∉ ord) :
    ord.length < V := by
  have h1 : ord.toFinset.card = ord.length := List.toFinset_card_of_nodup hnd
  have h2 : ord.toFinset ⊆ (Finset.range V).erase w := by
    intro a ha
    rw [List.mem_toFinset] at ha
    rw [Finset.mem_erase, Finset.mem_range]
    exact ⟨fun he => hwn (he ▸ ha), hltV a ha⟩
  have h3 := Finset.card_le_card h2
  rw [Finset.card_erase_of_mem (Finset.mem_range.mpr hw), Finset.card_range] at h3
  omega

/-- The invariant plus full entry coverage give a spanning tree. -/
theorem spanning_of_inv {V : Nat} {M : ℝ} {s : PrimState ℝ} {ord : List Nat}
    (hinv : primInv V M s ord) (hgood : goodEntries V s.mst ord) :
    isSpanningTree V s.mst := by
  have hreach := reach_of_ord hinv
  obtain ⟨hm1, hd1, hs1, hnd, hltV, hmo, h0, h8, h9, hQ⟩ := hinv
  refine ⟨hs1, h0, ?_, ?_⟩
  · intro w hwV h1w
    obtain ⟨e, he, hew, hev, hene, -⟩ := hgood w h1w hwV
    rw [edgeOKb, he]
    simp [hew, hev, hene]
  · intro w hwV
    by_cases hw0 : w = 0
    · subst hw0
      exact reachIn_zero_vertex _ _
    · by_cases hwm : w ∈ ord
      · have hr := hreach (ord.indexOf w) w hwm rfl
        have hle : ord.indexOf w + 1 ≤ V := by
          have := List.indexOf_lt_length.mpr hwm
          have := ord_card_le hnd hltV
          omega
        exact reachIn_le s.mst hle w hr
      · obtain ⟨e, he, -, -, -, hevo⟩ := hgood w (by omega) hwV
        have hr1 := hreach (ord.indexOf e.v) e.v hevo rfl
        have hlen := ord_card_lt hnd hltV hwV hwm
        have hidx := List.indexOf_lt_length.mpr hevo
        have hr2 : reachIn s.mst (V - 1) e.v = true :=
          reachIn_le s.mst (by omega) e.v hr1
        have hr3 : reachIn s.mst ((V - 1) + 1) w = true := by
          rw [reachIn, he]
          simp [hr2]
        rw [show (V - 1) + 1 = V from by omega] at hr3
        exact hr3

/-- The state `findMST` builds before its main loop. -/
theorem mstInitE_eq (V : Nat) (hV : 1 ≤ V) (M : ℝ) :
    mstInitE M V = .ok ⟨List.replicate V false, (List.replicate V M).set 0 M,
      List.replicate V none, [⟨0, 0, 0, M⟩]⟩ := by
  show (do
    let distTo ← setE (List.replicate V M) 0 M
    let pq ← heapInitGo [(⟨0, 0, 0, M⟩ : Item ℝ)]
    (Except.ok (⟨List.replicate V false, distTo, List.replicate V none, pq⟩ :
      PrimState ℝ) : Except String (PrimState ℝ))) = _
  rw [setE_ok _ _ _ (by simpa using hV), exceptBind_ok]
  with_unfolding_all rfl

theorem primInv_init (V : Nat) (hV : 1 ≤ V) (M : ℝ) :
    primInv V M ⟨List.replicate V false, (List.replicate V M).set 0 M,
      List.replicate V none, [⟨0, 0, 0, M⟩]⟩ [] := by
  refine ⟨by simp, by simp, by simp, List.nodup_nil, by simp, ?_, ?_, ?_, ?_, ?_⟩
  · intro u huV
    rw [getD_replicate V u false false huV]
    simp
  · rw [getD_replicate V 0 none none (by omega)]
  · intro u hu hu0
    cases hu
  · intro u h1 h2
    right
    constructor
    · rw [getD_replicate V u none none (by omega)]
    · rw [getD_set_ne _ _ _ _ _ (by omega)]
      exact getD_replicate V u M 0 (by omega)
  · intro it hit
    rw [List.mem_singleton] at hit
    subst hit
    exact Or.inl rfl

/-- Whenever `findMST` returns on a graph whose off-diagonal entries are
all below the `math.MaxFloat64` sentinel, the recorded `p.mst` is a
spanning tree of the `V` vertices rooted at the start vertex. -/
theorem findMSTE_spanning (V : Nat) (M : ℝ) (graph : List (List ℝ)) (hV : 1 ≤ V)
    (hgl : graph.length = V) (hrows : ∀ r ∈ graph, r.length = V)
    (hoff : ∀ i j, i < V → j < V → i ≠ j → (graph.getD i []).getD j 0 < M)
    (s : PrimState ℝ) (h : findMSTE M V graph = .ok s) :
    isSpanningTree V s.mst := by
  unfold findMSTE at h
  rw [mstInitE_eq V hV M, exceptBind_ok] at h
  rw [show V * V + V + 2 = (V * V + V + 1) + 1 from by omega] at h
  rw [mstLoop] at h
  rw [if_neg (by simp)] at h
  obtain ⟨s1, hstep, h⟩ := exceptBind_eq_ok h
  obtain ⟨ord1, hinv1, hgood1⟩ :=
    mstStep_inv V M graph hgl hrows hoff _ [] (primInv_init V hV M) s1 hstep
  rcases mstLoop_inv_run V M graph hgl hrows hoff _ s1 ord1 hinv1 s h with
    rfl | ⟨ord2, hinv2, hgood2⟩
  · exact spanning_of_inv hinv1 hgood1
  · exact spanning_of_inv hinv2 hgood2


/-! ### The claims -/

/-- Any pair of points whose squared coordinate differences sum below
`1000000` is closer than `math.MaxFloat64`. -/
theorem cabs_sub_lt_max (p q : ℝ × ℝ)
    (h2 : (p - q).1 ^ 2 + (p - q).2 ^ 2 < 1000000) :
    cabs (p - q) < ((maxFloat64 : ℚ) : ℝ) := by
  have hlt : cabs (p - q) < 1000 := by
    rw [cabs]
    have h1000 : (1000 : ℝ) = Real.sqrt 1000000 := by
      rw [show (1000000 : ℝ) = 1000 ^ 2 by norm_num]
      rw [Real.sqrt_sq (by norm_num)]
    rw [h1000]
    exact Real.sqrt_lt_sqrt (by positivity) h2
  have hbig := maxFloat64_big
  linarith

/-- Claim C1 (corrected).  On a point set of size `V ≥ 2` all of whose
pairwise distances lie strictly below `math.MaxFloat64`, every value
`findMST` returns records a sequence whose entries at indices `1..V-1`
are exactly `V-1` well-formed parent edges (vertex indices in `[0, V)`,
no self-loop) through which every vertex reaches vertex `0`: a tree
spanning all `V` vertices.  Distinct coordinates alone, as the original
claim has it, do not suffice (`claim_C1_cex`). -/
theorem claim_C1 (loc : List Point) (err : Option String) (mst : List (Option Edge))
    (hV : 2 ≤ loc.length)
    (hdist : ∀ i j, i < loc.length → j < loc.length → i ≠ j →
      cabs (loc.getD i default - loc.getD j default) < ((maxFloat64 : ℚ) : ℝ))
    (h : findMSTR loc (findDistances loc) = .ok (err, mst)) :
    isSpanningTree loc.length mst := by
  unfold findMSTR at h
  obtain ⟨s, hs, h2⟩ := exceptBind_eq_ok h
  have hmst : mst = s.mst := by
    have h3 : ((none : Option String), s.mst) = (err, mst) := Except.ok.inj h2
    exact (congrArg Prod.snd h3).symm
  subst hmst
  have hshape := findDistances_shape loc
  refine findMSTE_spanning loc.length ((maxFloat64 : ℚ) : ℝ) (findDistances loc)
    (by omega) hshape.1 hshape.2 ?_ s hs
  intro i j hi hj hne
  show get2 (findDistances loc) i j < ((maxFloat64 : ℚ) : ℝ)
  rw [findDistances_read loc i j hi hj, if_neg hne]
  exact hdist i j hi hj hne

/-- Witness for C1: the four collinear points of `locA` satisfy the
hypotheses, and the tree the solver records for them spans them. -/
theorem claim_C1_witness : isSpanningTree locA.length treeA := by
  refine claim_C1 locA none treeA (by norm_num [locA]) ?_ findMSTR_locA
  intro i j hi hj hne
  have h4 : locA.length = 4 := rfl
  rw [h4] at hi hj
  interval_cases i <;> interval_cases j <;>
    first
      | omega
      | (apply cabs_sub_lt_max; norm_num [locA])

/-- Counterexample to C1 as stated: `locD` holds two points with
distinct coordinates (at distance exactly `math.MaxFloat64`), yet the
solver returns with the entry at index `1` still `nil` — not `V-1 = 1`
edges. -/
theorem claim_C1_cex :
    2 ≤ locD.length ∧ locD.getD 0 default ≠ locD.getD 1 default ∧
      findMSTR locD (findDistances locD) = .ok (none, [none, none]) ∧
      ([none, none] : List (Option Edge)).getD 1 none = none := by
  refine ⟨by norm_num [locD], ?_, findMSTR_locD, rfl⟩
  intro he
  have h1 : ((0 : ℝ), (0 : ℝ)) = (((maxFloat64 : ℚ) : ℝ), (0 : ℝ)) := by
    simpa [locD] using he
  have h2 : (0 : ℝ) = ((maxFloat64 : ℚ) : ℝ) := congrArg Prod.fst h1
  have hbig := maxFloat64_big
  rw [← h2] at hbig
  linarith

/-- Claim C2 (code bug).  Minimality fails: on the four collinear points
of `locA` the solver returns `treeA`, of total weight `4`, while
`chainA` is a spanning tree over the same points of total weight `3`.
The slot-keyed `pq[w]` lookups in `visit` corrupt the queue distances,
so the greedy choice is not the cheapest crossing edge. -/
theorem claim_C2 :
    findMSTR locA (findDistances locA) = .ok (none, treeA) ∧
      isSpanningTree locA.length chainA ∧
      mstTotalDistance locA chainA < mstTotalDistance locA treeA := by
  refine ⟨findMSTR_locA, chainA_spanning, ?_⟩
  rw [treeA_weight, chainA_weight]
  norm_num

/-- Claim C3 (code bug).  After two iterations on `locA` the queue holds
two live items for vertex `3` (the `w` fields read `[3, 1, 3]`), so the
at-most-one-item-per-vertex invariant is violated: `pq[w]` in `visit`
looks up heap slot `w`, not the item of vertex `w`, and the
decrease-or-insert touches the wrong item. -/
theorem claim_C3 :
    ∃ s, (do
      let s0 ← mstInitE ((maxFloat64 : ℚ) : ℝ) locA.length
      mstIterate (findDistances locA) 2 s0) = .ok s ∧
      s.pq.map (fun it => it.w) = [3, 1, 3] ∧
      ¬ (s.pq.map (fun it => it.w)).Nodup := by
  obtain ⟨s, hs, hmap⟩ := mstIterate_locA_dup
  refine ⟨s, hs, hmap, ?_⟩
  rw [hmap]
  decide

/-- Claim C4 (corrected).  With a valid bounding box containing all the
points, well-formed tree entries, and a start vertex whose projected
cell is interior (row and column in `[1, 298]`), the rasterizer run
succeeds: every interpolated edge cell, endpoint vertex cell, and
start-block cell stays inside the `rows*columns` grid.  The original
claim has no interiority condition, and fails without it: the start
block reaches one row beyond the projected cell, so a point on the box
border panics (`claim_C4_cex`). -/
theorem claim_C4 (loc : List Point) (ep : Endpoints) (mst : List (Option Edge))
    (hx : ep.xmin < ep.xmax) (hy : ep.ymin < ep.ymax)
    (hin : ∀ p ∈ loc, inBox ep p) (hV : 0 < loc.length)
    (hmst : 1 ≤ mst.length)
    (hes : ∀ e ∈ mst.drop 1, ∃ e2, e = some e2 ∧ e2.v < loc.length ∧ e2.w < loc.length)
    (hr0 : 1 ≤ rowOf ep (loc.getD 0 default).2)
    (hr1 : rowOf ep (loc.getD 0 default).2 ≤ 298)
    (hc0 : 1 ≤ colOf ep (loc.getD 0 default).1)
    (hc1 : colOf ep (loc.getD 0 default).1 ≤ 298) :
    ∃ r, plotMST loc ep mst = .ok r := by
  obtain ⟨r, hr, -⟩ := plotMST_ok loc ep mst hx hy hin hV hmst hes hr0 hr1 hc0 hc1
  exact ⟨r, hr⟩

/-- Witness for C4: the coincident pair `locC7` in the box `epB`
satisfies the hypotheses, and its rasterization succeeds. -/
theorem claim_C4_witness : ∃ r, plotMST locC7 epB [none, some ⟨0, 1⟩] = .ok r := by
  refine claim_C4 locC7 epB [none, some ⟨0, 1⟩]
    (by norm_num [epB]) (by norm_num [epB])
    ?_ (by norm_num [locC7]) (by norm_num) ?_
    (by norm_num [locC7, rowOf_epB_2]) (by norm_num [locC7, rowOf_epB_2])
    (by norm_num [locC7, colOf_epB_1]) (by norm_num [locC7, colOf_epB_1])
  · intro p hp
    simp only [locC7, List.mem_cons, List.not_mem_nil, or_false] at hp
    rcases hp with rfl | rfl <;> norm_num [inBox, epB]
  · intro e he
    simp only [List.drop, List.mem_singleton] at he
    exact ⟨⟨0, 1⟩, he, by norm_num [locC7], by norm_num [locC7]⟩

/-- Counterexample to C4 as stated: both points of `locB` lie inside the
box `epB` (the start vertex sits on the `ymax` border, projecting to row
`0`), yet the start block writes to row `-1` and the run panics with a
grid index out of range. -/
theorem claim_C4_cex :
    epB.xmin < epB.xmax ∧ epB.ymin < epB.ymax ∧
      (∀ p ∈ locB, inBox epB p) ∧
      plotMST locB epB [none, some ⟨0, 1⟩] = .error "grid index out of range" := by
  refine ⟨by norm_num [epB], by norm_num [epB], ?_, plotMST_locB_err⟩
  intro p hp
  simp only [locB, List.mem_cons, List.not_mem_nil, or_false] at hp
  rcases hp with rfl | rfl <;> norm_num [inBox, epB]

/-- Claim C5 (corrected).  There is no `EmptyInput` error kind: on every
return the error result of `findMST` is `nil`.  On the empty point
sequence the function does not fail fast with a distinguishable error —
it panics on the `distTo[0]` write with an index out of range
(`claim_C5_cex`). -/
theorem claim_C5 (loc : List Point) (g : List (List ℝ))
    (r : Option String × List (Option Edge))
    (h : findMSTR loc g = .ok r) : r.1 = none :=
  findMSTR_err_none loc g r h

/-- Witness for C5: a concrete successful run, whose error component the
theorem shows to be `nil`. -/
theorem claim_C5_witness :
    findMSTR locC7 (findDistances locC7) = .ok (none, [none, some ⟨0, 1⟩]) ∧
      (((none : Option String), ([none, some ⟨0, 1⟩] : List (Option Edge))).1 = none) :=
  ⟨findMSTR_locC7,
    claim_C5 locC7 (findDistances locC7) (none, [none, some ⟨0, 1⟩]) findMSTR_locC7⟩

/-- Counterexample to C5 as stated: on zero points the solver does not
return an error value at all — the Go code panics (index out of range on
`distTo[0]`), modelled as the exceptional result. -/
theorem claim_C5_cex :
    findMSTR [] (findDistances []) = .error "index out of range" :=
  findMSTR_empty

/-- Claim C6 (corrected).  For `V ≥ 1` points the matrix is `V×V`; for
`a ≠ b` cell `[a][b]` equals cell `[b][a]` equals the Euclidean distance
of points `a` and `b`, and each diagonal cell holds `math.MaxFloat64`.
The diagonal value is a fixed constant, not, as the original claim has
it, a value guaranteed larger than every real pairwise distance: an
off-diagonal entry can equal it, and can strictly exceed it
(`claim_C6_cex`). -/
theorem claim_C6 (loc : List Point) (a b : Nat)
    (ha : a < loc.length) (hb : b < loc.length) :
    (findDistances loc).length = loc.length ∧
      (∀ row ∈ findDistances loc, row.length = loc.length) ∧
      get2 (findDistances loc) a b =
        (if a = b then ((maxFloat64 : ℚ) : ℝ)
         else cabs (loc.getD a default - loc.getD b default)) ∧
      get2 (findDistances loc) a b = get2 (findDistances loc) b a := by
  have hshape := findDistances_shape loc
  refine ⟨hshape.1, hshape.2, findDistances_read loc a b ha hb, ?_⟩
  rw [findDistances_read loc a b ha hb, findDistances_read loc b a hb ha]
  by_cases hab : a = b
  · rw [if_pos hab, if_pos hab.symm]
  · rw [if_neg hab, if_neg (fun he => hab he.symm)]
    exact cabs_sub_comm _ _

/-- Witness for C6 at the concrete pair `locC7`, entry `(0, 1)`. -/
theorem claim_C6_witness :
    get2 (findDistances locC7) 0 1 =
      (if (0 : Nat) = 1 then ((maxFloat64 : ℚ) : ℝ)
       else cabs (locC7.getD 0 default - locC7.getD 1 default)) :=
  (claim_C6 locC7 0 1 (by norm_num [locC7]) (by norm_num [locC7])).2.2.1

/-- Counterexample to the sentinel-dominance part of C6: on `locD` the
off-diagonal entry `[0][1]` already equals the diagonal sentinel, and on
`locF` (two points twice `math.MaxFloat64` apart) it strictly exceeds
it, so the diagonal holds a fixed constant, not a value guaranteed
larger than every real pairwise distance. -/
theorem claim_C6_cex :
    (¬ get2 (findDistances locD) 0 1 < get2 (findDistances locD) 0 0) ∧
      get2 (findDistances locF) 0 0 < get2 (findDistances locF) 0 1 := by
  constructor
  · rw [findDistances_locD_flat.1, findDistances_locD_flat.2]
    exact lt_irrefl _
  · have h0 : (0 : Nat) < locF.length := by norm_num [locF]
    have h1 : (1 : Nat) < locF.length := by norm_num [locF]
    rw [findDistances_read locF 0 0 h0 h0, findDistances_read locF 0 1 h0 h1]
    rw [if_pos rfl, if_neg (by omega : ¬ (0 : Nat) = 1)]
    have hbig := maxFloat64_big
    have h2 : cabs (locF.getD 0 default - locF.getD 1 default)
        = |(0 : ℝ) - 2 * ((maxFloat64 : ℚ) : ℝ)| := by
      rw [show locF.getD 0 default = ((0 : ℝ), (0 : ℝ)) from rfl,
        show locF.getD 1 default = ((2 * ((maxFloat64 : ℚ) : ℝ)), (0 : ℝ)) from rfl,
        Prod.mk_sub_mk, sub_zero, cabs_pair_zero]
    rw [h2, zero_sub, abs_neg, abs_of_nonneg (by linarith)]
    linarith

/-- Claim C7 (confirmed).  On two coincident points the solver returns
exactly one recorded edge `(0, 1)`, its recomputed weight is `0`, the
zero-length edge yields a zero interpolation cell count (the `int`
truncation of `columns * length / lenEP` guards the division before the
loop runs), and the rasterization completes, reporting distance `0`. -/
theorem claim_C7 :
    findMSTR locC7 (findDistances locC7) = .ok (none, [none, some ⟨0, 1⟩]) ∧
      mstTotalDistance locC7 [none, some ⟨0, 1⟩] = 0 ∧
      ncellsOf (lenEPOf epB) 0 = 0 ∧
      ∃ r, plotMST locC7 epB [none, some ⟨0, 1⟩] = .ok r ∧ r.distance = 0 := by
  refine ⟨findMSTR_locC7, ?_, ncellsOf_epB_0, plotMST_locC7_ok⟩
  simp only [mstTotalDistance, edgeLenOf, List.drop, List.map_cons, List.map_nil,
    List.sum_cons, List.sum_nil, locC7]
  simp [cabs_zero]

/-- Claim C8 (corrected).  Right after any single edge is drawn, its two
endpoint cells read `"vertex"` (the endpoint marks are written after the
interpolated `"edge"` cells of that edge); and in the final grid the
start cell and its four direct neighbours read `"startvertex"`,
overwriting anything prior.  Across edges the priority does not hold:
the interpolated cells of a later edge overwrite an endpoint mark of an
earlier one (`claim_C8_cex`). -/
theorem claim_C8 (loc : List Point) (ep : Endpoints) (L : ℝ) (g : Grid) (d : ℝ)
    (e : Edge) (g2 : Grid) (d2 : ℝ)
    (he : plotEdge loc ep L (g, d) (some e) = .ok (g2, d2))
    (mst : List (Option Edge)) (r : PlotResult) (p0 : Point)
    (hr : plotMST loc ep mst = .ok r) (hp0 : getE loc 0 = .ok p0) :
    (g2 (projIdx ep (loc.getD e.v default)) = "vertex" ∧
      g2 (projIdx ep (loc.getD e.w default)) = "vertex") ∧
    (∀ c : ℤ,
      (c = rowOf ep p0.2 * (columns : ℕ) + colOf ep p0.1 ∨
        c = (rowOf ep p0.2 + 1) * (columns : ℕ) + colOf ep p0.1 ∨
        c = (rowOf ep p0.2 - 1) * (columns : ℕ) + colOf ep p0.1 ∨
        c = rowOf ep p0.2 * (columns : ℕ) + colOf ep p0.1 + 1 ∨
        c = rowOf ep p0.2 * (columns : ℕ) + colOf ep p0.1 - 1) →
      r.grid c = "startvertex") := by
  constructor
  · obtain ⟨e2, he2, -, hv, hw⟩ := plotEdge_ok_inv he
    have hee : e = e2 := Option.some.inj he2
    subst hee
    exact ⟨hv, hw⟩
  · intro c hc
    obtain ⟨ge, dA, p1, -, hp1, -, hgrid⟩ := plotMST_ok_inv hr
    have hp : p0 = p1 := by
      rw [hp0] at hp1
      exact Except.ok.inj hp1
    subst hp
    rw [hgrid c, if_pos hc]

/-- Witness for C8: the single edge of the `locC7` run, with the start
block checked at flat cell `45100`. -/
theorem claim_C8_witness :
    ∃ (g2 : Grid) (d2 : ℝ) (r : PlotResult),
      plotEdge locC7 epB (lenEPOf epB) ((fun _ => ""), 0) (some ⟨0, 1⟩) = .ok (g2, d2) ∧
      plotMST locC7 epB [none, some ⟨0, 1⟩] = .ok r ∧
      g2 (projIdx epB (locC7.getD 0 default)) = "vertex" ∧
      g2 (projIdx epB (locC7.getD 1 default)) = "vertex" ∧
      r.grid 45100 = "startvertex" := by
  obtain ⟨r, hr, -⟩ := plotMST_locC7_ok
  obtain ⟨ge, dA, p1, hf, -, -, -⟩ := plotMST_ok_inv hr
  rw [show (([none, some (⟨0, 1⟩ : Edge)] : List (Option Edge)).drop 1) =
    [some ⟨0, 1⟩] from rfl, List.foldlM_cons] at hf
  obtain ⟨b, hb, -⟩ := exceptBind_eq_ok hf
  have hp0 : getE locC7 0 = .ok ((1 : ℝ), (2 : ℝ)) := rfl
  have hmain := claim_C8 locC7 epB (lenEPOf epB) (fun _ => "") 0 ⟨0, 1⟩ b.1 b.2 hb
    [none, some ⟨0, 1⟩] r ((1 : ℝ), (2 : ℝ)) hr hp0
  refine ⟨b.1, b.2, r, hb, hr, hmain.1.1, hmain.1.2, ?_⟩
  refine hmain.2 45100 (Or.inl ?_)
  norm_num [rowOf_epB_2, colOf_epB_1, columns, rows]

/-- Counterexample to the across-edges priority in C8: plotting `treeA`
on `locE` succeeds, but the final grid labels the projected cell of
vertex `1` (flat index `45104`) `"edge"`: the second interpolated point
of the last edge lands on it after the `"vertex"` mark made when the
first edge was drawn. -/
theorem claim_C8_cex :
    ∃ r, plotMST locE epB treeA = .ok r ∧
      projIdx epB (locE.getD 1 default) = 45104 ∧ r.grid 45104 = "edge" :=
  plotMST_locE_grid

/-- Claim C9 (confirmed).  The distance the rasterizer reports equals
the sum, over the recorded entries at indices `1..V-1`, of the Euclidean
distance between the coordinates of the two endpoints of each edge,
recomputed from the point locations — each entry contributing exactly
once, in order, via the left fold over `p.mst[1:]`. -/
theorem claim_C9 (loc : List Point) (ep : Endpoints) (mst : List (Option Edge))
    (r : PlotResult) (h : plotMST loc ep mst = .ok r) :
    r.distance = mstTotalDistance loc mst :=
  plotMST_distance h

/-- Witness for C9 on the concrete `locC7` run. -/
theorem claim_C9_witness :
    ∃ r, plotMST locC7 epB [none, some ⟨0, 1⟩] = .ok r ∧
      r.distance = mstTotalDistance locC7 [none, some ⟨0, 1⟩] := by
  obtain ⟨r, hr, -⟩ := plotMST_locC7_ok
  exact ⟨r, hr, claim_C9 locC7 epB [none, some ⟨0, 1⟩] r hr⟩

/-- Claim C10 (confirmed).  `findDistances` returns a literal `nil`
error, and on every return of `findMST` the error component is `nil`:
neither declared error result ever signals a failure, so a caller cannot
detect an invalid input through them. -/
theorem claim_C10 :
    (∀ loc : List Point, findDistancesErr loc = none) ∧
      ∀ (loc : List Point) (g : List (List ℝ))
        (r : Option String × List (Option Edge)),
        findMSTR loc g = .ok r → r.1 = none :=
  ⟨fun _ => rfl, findMSTR_err_none⟩

end PrimMST
